import Mathlib

/-!
Shallow embedding of `src/helper_functions.py`: pairwise sequence alignment by
dynamic programming.  `global_alignment` is the Needleman–Wunsch aligner
(lines 1–68 of the source), `local_alignment` the Smith–Waterman aligner
(lines 71–151).  Sequences are lists of characters; the scoring function is an
arbitrary total function `Char → Char → Int` (the code only adds, compares and
maximises scores, so integers model the numeric type; every comparison the
code performs on floats is between two sums of identical operands, so the
integer model is faithful for integer-valued scoring functions such as the
one in the doctests).  The code queries the scoring function with `'*'` as the
gap symbol (lines 36, 38, 46–47, 54, 58, 112–113) while writing `'-'` into the
aligned output strings (lines 56, 59, 141, 144).
-/

namespace Alignment

/-- Gap symbol the code passes to the scoring function (`'*'`). -/
def gapSym : Char := '*'

/-- Gap marker the code writes into aligned output strings (`'-'`). -/
def gapMark : Char := '-'

/-- Needleman–Wunsch DP matrix of `global_alignment` (source lines 31–48):
`dpG s x y i j` is `dp[i][j]`.  Row 0 and column 0 hold cumulative gap scores
(lines 35–38); an interior cell is the maximum of the diagonal, up and left
branches (lines 40–48; the `if seq1[i-1] == seq2[j-1]` at lines 42–45 has two
identical branches, so the recurrence is the same in either case). -/
def dpG (s : Char → Char → Int) (x y : List Char) : Nat → Nat → Int
  | 0, 0 => 0
  | i + 1, 0 => dpG s x y i 0 + s (x.getD i ' ') gapSym
  | 0, j + 1 => dpG s x y 0 j + s gapSym (y.getD j ' ')
  | i + 1, j + 1 =>
      max (max (dpG s x y i j + s (x.getD i ' ') (y.getD j ' '))
               (dpG s x y i (j + 1) + s (x.getD i ' ') gapSym))
          (dpG s x y (i + 1) j + s gapSym (y.getD j ' '))

/-- Sentinel row 0 of the global DP matrix, built left to right: the running
accumulator `a` is `dp[0][j]` (source lines 37–38). -/
def gRow0 (s : Char → Char → Int) : List Char → Int → List Int
  | [], a => [a]
  | c :: cs, a => a :: gRow0 s cs (a + s gapSym c)

/-- Interior of one row of the global DP matrix, built left to right from the
previous row: `pPrev` is `dp[i-1][j-1]`, the head of `pRest` is `dp[i-1][j]`,
`lft` is `dp[i][j-1]` (the cell to the left) (source lines 40–48). -/
def gRowAux (s : Char → Char → Int) (xi : Char) : List Int → Int → List Char → List Int
  | pPrev :: pRest, lft, c :: cs =>
      let v := max (max (pPrev + s xi c) (pRest.headD 0 + s xi gapSym))
                   (lft + s gapSym c)
      v :: gRowAux s xi pRest v cs
  | _, _, _ => []

/-- Rows `1..n` of the global DP matrix, each built from its predecessor
(column 0 of row `i` is `dp[i-1][0] + s(x[i-1], '*')`, source line 36). -/
def gRows (s : Char → Char → Int) (y : List Char) : List Int → List Char → List (List Int)
  | _, [] => []
  | prev, xi :: xs =>
      let c0 := prev.headD 0 + s xi gapSym
      let r := c0 :: gRowAux s xi prev c0 y
      r :: gRows s y r xs

/-- Full `(n+1) × (m+1)` global DP matrix; a memoised, executable form of
`dpG` (the bridge is `dpLook_gTable`). -/
def gTable (s : Char → Char → Int) (x y : List Char) : List (List Int) :=
  gRow0 s y 0 :: gRows s y (gRow0 s y 0) x

/-- Matrix lookup `dp[i][j]`. -/
def dpLook (t : List (List Int)) (i j : Nat) : Int := (t.getD i []).getD j 0

/-- Traceback loop of `global_alignment` (source lines 51–66), parametric in
the DP lookup `dpf`.  The accumulator holds the two aligned strings built so
far; the loop prepends one column per step, exactly as the Python loop
prepends to `align1` and `align2`.  The final branch mirrors the Python
`else` (diagonal step); `Nat` subtraction stands in for Python's `i - 1`
(the case `i = 0` or `j = 0` in that branch is unreachable when `dpf` is the
real DP matrix: see `gDiag_of_not_up_left`). -/
def gTraceback (s : Char → Char → Int) (x y : List Char) (dpf : Nat → Nat → Int) :
    Nat → Nat → List Char × List Char → List Char × List Char
  | i, j, acc =>
    if h1 : i = 0 ∧ j = 0 then acc
    else if h2 : 0 < i ∧ dpf i j = dpf (i - 1) j + s (x.getD (i - 1) ' ') gapSym then
      gTraceback s x y dpf (i - 1) j (x.getD (i - 1) ' ' :: acc.1, gapMark :: acc.2)
    else if h3 : 0 < j ∧ dpf i j = dpf i (j - 1) + s gapSym (y.getD (j - 1) ' ') then
      gTraceback s x y dpf i (j - 1) (gapMark :: acc.1, y.getD (j - 1) ' ' :: acc.2)
    else
      gTraceback s x y dpf (i - 1) (j - 1)
        (x.getD (i - 1) ' ' :: acc.1, y.getD (j - 1) ' ' :: acc.2)
  termination_by i j => i + j
  decreasing_by
  · obtain ⟨hi, -⟩ := h2; omega
  · obtain ⟨hj, -⟩ := h3; omega
  · omega

/-- Fuel-indexed form of the global traceback loop: `none` means the fuel ran
out before the loop reached `(0, 0)`.  `gTraceF_eq_gTraceback` shows fuel
`i + j` always suffices (each loop step strictly decreases `i + j`), so this
is an executable rendering of the same `while` loop. -/
def gTraceF (s : Char → Char → Int) (x y : List Char) (dpf : Nat → Nat → Int) :
    Nat → Nat → Nat → List Char × List Char → Option (List Char × List Char)
  | 0, i, j, acc => if i = 0 ∧ j = 0 then some acc else none
  | fuel + 1, i, j, acc =>
    if i = 0 ∧ j = 0 then some acc
    else if 0 < i ∧ dpf i j = dpf (i - 1) j + s (x.getD (i - 1) ' ') gapSym then
      gTraceF s x y dpf fuel (i - 1) j (x.getD (i - 1) ' ' :: acc.1, gapMark :: acc.2)
    else if 0 < j ∧ dpf i j = dpf i (j - 1) + s gapSym (y.getD (j - 1) ' ') then
      gTraceF s x y dpf fuel i (j - 1) (gapMark :: acc.1, y.getD (j - 1) ' ' :: acc.2)
    else
      gTraceF s x y dpf fuel (i - 1) (j - 1)
        (x.getD (i - 1) ' ' :: acc.1, y.getD (j - 1) ' ' :: acc.2)

/-- Embedding of `global_alignment(seq1, seq2, scoring_function)` (source
lines 1–68): build the DP matrix, trace back from `(n, m)` and return the two
aligned strings together with `dp[n][m]`. -/
def global_alignment (seq1 seq2 : List Char) (s : Char → Char → Int) :
    List Char × List Char × Int :=
  let dpf := dpLook (gTable s seq1 seq2)
  let p := (gTraceF s seq1 seq2 dpf (seq1.length + seq2.length)
      seq1.length seq2.length ([], [])).getD ([], [])
  (p.1, p.2, dpf seq1.length seq2.length)

/-- Smith–Waterman DP matrix of `local_alignment` (source lines 101–114):
row 0 and column 0 stay 0, and each interior cell is
`max(0, match, delete, insert)` (line 114). -/
def dpL (s : Char → Char → Int) (x y : List Char) : Nat → Nat → Int
  | 0, _ => 0
  | _ + 1, 0 => 0
  | i + 1, j + 1 =>
      max 0 (max (dpL s x y i j + s (x.getD i ' ') (y.getD j ' '))
                 (max (dpL s x y i (j + 1) + s (x.getD i ' ') gapSym)
                      (dpL s x y (i + 1) j + s gapSym (y.getD j ' '))))

/-- Interior of one row of the local DP matrix (same shape as `gRowAux`, with
the extra `max 0` of line 114). -/
def lRowAux (s : Char → Char → Int) (xi : Char) : List Int → Int → List Char → List Int
  | pPrev :: pRest, lft, c :: cs =>
      let v := max 0 (max (pPrev + s xi c)
                          (max (pRest.headD 0 + s xi gapSym) (lft + s gapSym c)))
      v :: lRowAux s xi pRest v cs
  | _, _, _ => []

/-- Rows `1..n` of the local DP matrix (column 0 stays 0). -/
def lRows (s : Char → Char → Int) (y : List Char) : List Int → List Char → List (List Int)
  | _, [] => []
  | prev, xi :: xs =>
      let r := 0 :: lRowAux s xi prev 0 y
      r :: lRows s y r xs

/-- Full `(n+1) × (m+1)` local DP matrix; executable memoised form of `dpL`. -/
def lTable (s : Char → Char → Int) (x y : List Char) : List (List Int) :=
  List.replicate (y.length + 1) 0 :: lRows s y (List.replicate (y.length + 1) 0) x

/-- Traceback tags of `local_alignment` (source lines 104, 116–123): 0 = NONE
(also everywhere in row 0 and column 0, which the fill loop never writes),
1 = diagonal when the cell equals the `match` branch, 2 = up (`delete`),
3 = left (`insert`), checked in exactly that order.  The final 0 is
unreachable when `dpf` is the real DP matrix, which equals one of the four
branches at every interior cell. -/
def tagT (s : Char → Char → Int) (x y : List Char) (dpf : Nat → Nat → Int) :
    Nat → Nat → Nat
  | 0, _ => 0
  | _ + 1, 0 => 0
  | i + 1, j + 1 =>
    let v := dpf (i + 1) (j + 1)
    if v = 0 then 0
    else if v = dpf i j + s (x.getD i ' ') (y.getD j ' ') then 1
    else if v = dpf i (j + 1) + s (x.getD i ' ') gapSym then 2
    else if v = dpf (i + 1) j + s gapSym (y.getD j ' ') then 3
    else 0

/-- Maximum-cell tracking of the fill loop (source lines 106–107, 125–127):
row-major scan over `i ∈ [1, n]`, `j ∈ [1, m]`, updating only on a strict
increase, starting from `(0, 0, 0)`.  Returns `(max_i, max_j, max_score)`. -/
def bestCell (dpf : Nat → Nat → Int) (n m : Nat) : Nat × Nat × Int :=
  (List.range n).foldl
    (fun a i' =>
      (List.range m).foldl
        (fun b j' =>
          if b.2.2 < dpf (i' + 1) (j' + 1) then (i' + 1, j' + 1, dpf (i' + 1) (j' + 1))
          else b)
        a)
    (0, 0, 0)

/-- Traceback loop of `local_alignment` (source lines 130–146), parametric in
the DP lookup.  It produces the two aligned strings in traceback order (the
Python loop appends and reverses afterwards, lines 148–149). -/
def ltraceB (s : Char → Char → Int) (x y : List Char) (dpf : Nat → Nat → Int) :
    Nat → Nat → List Char × List Char
  | 0, _ => ([], [])
  | _ + 1, 0 => ([], [])
  | i + 1, j + 1 =>
    let t := tagT s x y dpf (i + 1) (j + 1)
    if t = 1 then
      let p := ltraceB s x y dpf i j
      (x.getD i ' ' :: p.1, y.getD j ' ' :: p.2)
    else if t = 2 then
      let p := ltraceB s x y dpf i (j + 1)
      (x.getD i ' ' :: p.1, gapMark :: p.2)
    else if t = 3 then
      let p := ltraceB s x y dpf (i + 1) j
      (gapMark :: p.1, y.getD j ' ' :: p.2)
    else ([], [])
  termination_by i j => i + j
  decreasing_by
  · omega
  · omega
  · omega

/-- Fuel-indexed form of the local traceback loop; fuel `i + j` always
suffices (`lTraceF_eq_ltraceB`), making it an executable rendering of the
same `while` loop. -/
def lTraceF (s : Char → Char → Int) (x y : List Char) (dpf : Nat → Nat → Int) :
    Nat → Nat → Nat → Option (List Char × List Char)
  | 0, i, j => if tagT s x y dpf i j = 0 then some ([], []) else none
  | fuel + 1, i, j =>
    let t := tagT s x y dpf i j
    if t = 1 then
      (lTraceF s x y dpf fuel (i - 1) (j - 1)).map
        (fun p => (x.getD (i - 1) ' ' :: p.1, y.getD (j - 1) ' ' :: p.2))
    else if t = 2 then
      (lTraceF s x y dpf fuel (i - 1) j).map
        (fun p => (x.getD (i - 1) ' ' :: p.1, gapMark :: p.2))
    else if t = 3 then
      (lTraceF s x y dpf fuel i (j - 1)).map
        (fun p => (gapMark :: p.1, y.getD (j - 1) ' ' :: p.2))
    else some ([], [])

/-- Embedding of `local_alignment(seq1, seq2, scoring_function)` (source
lines 71–151): build the DP matrix and tags, find the maximum cell, trace
back from it until a NONE tag, reverse the collected columns and return them
with the maximum score. -/
def local_alignment (seq1 seq2 : List Char) (s : Char → Char → Int) :
    List Char × List Char × Int :=
  let dpf := dpLook (lTable s seq1 seq2)
  let b := bestCell dpf seq1.length seq2.length
  let p := (lTraceF s seq1 seq2 dpf (b.1 + b.2.1) b.1 b.2.1).getD ([], [])
  (p.1.reverse, p.2.reverse, b.2.2)

/-- Gap-stripping used by the spec's properties: drop every output gap
marker `'-'` from an aligned string. -/
def removeGaps (l : List Char) : List Char := l.filter (fun c => c != gapMark)

/-- Score contributed by one aligned column: a gap column contributes the
remaining symbol scored against the gap symbol (as the code queried it during
the fill), a symbol column contributes the pair's score. -/
def columnScore (s : Char → Char → Int) (a b : Char) : Int :=
  if b = gapMark then s a gapSym
  else if a = gapMark then s gapSym b
  else s a b

/-- Column-wise re-scoring of an alignment: sum of `columnScore` over the
aligned columns. -/
def alignScore (s : Char → Char → Int) : List Char → List Char → Int
  | a :: l1, b :: l2 => columnScore s a b + alignScore s l1 l2
  | _, _ => 0

/-- Occurrence of `a` as a contiguous substring of `b`. -/
def substringOf (a b : List Char) : Prop := ∃ u v, u ++ a ++ v = b

/-- No column of an alignment carries the gap marker in both rows. -/
def noBothGap (l1 l2 : List Char) : Prop :=
  ∀ p ∈ l1.zip l2, ¬(p.1 = gapMark ∧ p.2 = gapMark)

/-- Reference global traceback written from the spec's words (§4.1 step 3):
at each cell re-derive which recurrence branches reproduce the stored value
and prefer the "up" branch, then "left", then "diagonal"; stop at `(0, 0)`
(and, for totality, also when no branch reproduces the stored value, which
cannot happen on the real DP matrix). -/
def gTracebackRef (s : Char → Char → Int) (x y : List Char) (dpf : Nat → Nat → Int) :
    Nat → Nat → List Char × List Char → List Char × List Char
  | i, j, acc =>
    if h1 : i = 0 ∧ j = 0 then acc
    else if h2 : 0 < i ∧ dpf i j = dpf (i - 1) j + s (x.getD (i - 1) ' ') gapSym then
      gTracebackRef s x y dpf (i - 1) j (x.getD (i - 1) ' ' :: acc.1, gapMark :: acc.2)
    else if h3 : 0 < j ∧ dpf i j = dpf i (j - 1) + s gapSym (y.getD (j - 1) ' ') then
      gTracebackRef s x y dpf i (j - 1) (gapMark :: acc.1, y.getD (j - 1) ' ' :: acc.2)
    else if h4 : 0 < i ∧ 0 < j ∧
        dpf i j = dpf (i - 1) (j - 1) + s (x.getD (i - 1) ' ') (y.getD (j - 1) ' ') then
      gTracebackRef s x y dpf (i - 1) (j - 1)
        (x.getD (i - 1) ' ' :: acc.1, y.getD (j - 1) ' ' :: acc.2)
    else acc
  termination_by i j => i + j
  decreasing_by
  · obtain ⟨hi, -⟩ := h2; omega
  · obtain ⟨hj, -⟩ := h3; omega
  · obtain ⟨hi, hj, -⟩ := h4; omega

/-- Cumulative gap score of aligning all of `y` against gaps in the first
sequence (the value `dp[0][m]`, source line 38). -/
def gapScoreAgainst (s : Char → Char → Int) (y : List Char) : Int :=
  (y.map (fun c => s gapSym c)).sum

/-- Cumulative gap score of aligning all of `x` against gaps in the second
sequence (the value `dp[n][0]`, source line 36). -/
def gapScoreOf (s : Char → Char → Int) (x : List Char) : Int :=
  (x.map (fun c => s c gapSym)).sum

/-- Scoring function of the doctests (source lines 25 and 95):
`lambda x, y: [-1, 1][x == y]`, i.e. `1` for equal symbols and `-1` for any
other pair, gap comparisons included. -/
def matchScore : Char → Char → Int := fun a b => if a = b then 1 else -1

/-! Helper lemmas. -/

theorem getD_mem {α : Type} {l : List α} {k : Nat} (h : k < l.length) (d : α) :
    l.getD k d ∈ l := by
  rw [List.getD_eq_getElem l d h]; exact List.getElem_mem h

theorem take_getD_succ {α : Type} {l : List α} {k : Nat} (h : k < l.length) (d : α) :
    l.take (k + 1) = l.take k ++ [l.getD k d] := by
  rw [List.getD_eq_getElem l d h, ← List.take_concat_get l k h, List.concat_eq_append]

theorem eq_of_max3 {a b c v : Int} (h : v = max (max a b) c) : v = a ∨ v = b ∨ v = c := by
  rcases max_choice (max a b) c with h1 | h1
  · rw [h1] at h
    rcases max_choice a b with h2 | h2
    · rw [h2] at h; exact Or.inl h
    · rw [h2] at h; exact Or.inr (Or.inl h)
  · rw [h1] at h; exact Or.inr (Or.inr h)

theorem eq_of_max4 {a b c v : Int} (h : v = max 0 (max a (max b c))) :
    v = 0 ∨ v = a ∨ v = b ∨ v = c := by
  rcases max_choice 0 (max a (max b c)) with h1 | h1
  · rw [h1] at h; exact Or.inl h
  · rw [h1] at h
    rcases max_choice a (max b c) with h2 | h2
    · rw [h2] at h; exact Or.inr (Or.inl h)
    · rw [h2] at h
      rcases max_choice b c with h3 | h3
      · rw [h3] at h; exact Or.inr (Or.inr (Or.inl h))
      · rw [h3] at h; exact Or.inr (Or.inr (Or.inr h))

/-! Bridge between the executable global DP table and the recurrence `dpG`. -/

theorem gRow0_head (s : Char → Char → Int) (l : List Char) (a : Int) :
    (gRow0 s l a).getD 0 0 = a := by
  cases l <;> simp [gRow0]

theorem gRow0_length (s : Char → Char → Int) (l : List Char) (a : Int) :
    (gRow0 s l a).length = l.length + 1 := by
  induction l generalizing a with
  | nil => simp [gRow0]
  | cons c cs ih => simp [gRow0, ih]

theorem gRow0_getD (s : Char → Char → Int) (x y : List Char) :
    ∀ (j k : Nat), k + j ≤ y.length →
      (gRow0 s (y.drop k) (dpG s x y 0 k)).getD j 0 = dpG s x y 0 (k + j) := by
  intro j
  induction j with
  | zero => intro k _; simpa using gRow0_head s (y.drop k) (dpG s x y 0 k)
  | succ j ih =>
    intro k hk
    have hklt : k < y.length := by omega
    have hget : y.getD k ' ' = y[k] := List.getD_eq_getElem y ' ' hklt
    rw [List.drop_eq_getElem_cons hklt]
    have hstep : dpG s x y 0 k + s gapSym y[k] = dpG s x y 0 (k + 1) := by
      rw [← hget]; simp [dpG]
    simp only [gRow0, List.getD_cons_succ, hstep]
    have := ih (k + 1) (by omega)
    rw [this]
    congr 1
    omega

theorem dpG_row0 (s : Char → Char → Int) (x y : List Char) (j : Nat) (hj : j ≤ y.length) :
    (gRow0 s y 0).getD j 0 = dpG s x y 0 j := by
  have h0 : (0 : Int) = dpG s x y 0 0 := by simp [dpG]
  have := gRow0_getD s x y j 0 (by omega)
  simpa [h0] using this

theorem gRowAux_length (s : Char → Char → Int) (xi : Char) :
    ∀ (p : List Int) (a : Int) (cs : List Char),
      (gRowAux s xi p a cs).length = min p.length cs.length := by
  intro p
  induction p with
  | nil => intro a cs; cases cs <;> simp [gRowAux]
  | cons q qs ih =>
    intro a cs
    cases cs with
    | nil => simp [gRowAux]
    | cons c cs' => simp [gRowAux, ih]; omega

theorem gRowAux_getD (s : Char → Char → Int) (x y : List Char) (i : Nat) :
    ∀ (j k : Nat) (p : List Int),
      p.length = y.length + 1 - k →
      (∀ t, t ≤ y.length - k → p.getD t 0 = dpG s x y i (k + t)) →
      j < y.length - k →
      (gRowAux s (x.getD i ' ') p (dpG s x y (i + 1) k) (y.drop k)).getD j 0 =
        dpG s x y (i + 1) (k + 1 + j) := by
  intro j
  induction j with
  | zero =>
    intro k p hlen hvals hj
    have hklt : k < y.length := by omega
    have hget : y.getD k ' ' = y[k] := List.getD_eq_getElem y ' ' hklt
    rw [List.drop_eq_getElem_cons hklt]
    obtain ⟨p0, pRest, rfl⟩ : ∃ p0 pRest, p = p0 :: pRest := by
      cases p with
      | nil => simp at hlen; omega
      | cons a b => exact ⟨a, b, rfl⟩
    have hp0 : p0 = dpG s x y i k := by simpa using hvals 0 (by omega)
    have hp1 : pRest.headD 0 = dpG s x y i (k + 1) := by
      have h := hvals 1 (by omega)
      cases pRest with
      | nil => simpa using h
      | cons q qs => simpa using h
    simp only [gRowAux, List.getD_cons_zero]
    rw [hp0, hp1]
    have : dpG s x y (i + 1) (k + 1) =
        max (max (dpG s x y i k + s (x.getD i ' ') (y.getD k ' '))
                 (dpG s x y i (k + 1) + s (x.getD i ' ') gapSym))
            (dpG s x y (i + 1) k + s gapSym (y.getD k ' ')) := by
      simp [dpG]
    rw [hget] at this
    simpa using this.symm
  | succ j ih =>
    intro k p hlen hvals hj
    have hklt : k < y.length := by omega
    have hget : y.getD k ' ' = y[k] := List.getD_eq_getElem y ' ' hklt
    rw [List.drop_eq_getElem_cons hklt]
    obtain ⟨p0, pRest, rfl⟩ : ∃ p0 pRest, p = p0 :: pRest := by
      cases p with
      | nil => simp at hlen; omega
      | cons a b => exact ⟨a, b, rfl⟩
    have hp0 : p0 = dpG s x y i k := by simpa using hvals 0 (by omega)
    have hp1 : pRest.headD 0 = dpG s x y i (k + 1) := by
      have h := hvals 1 (by omega)
      cases pRest with
      | nil => simpa using h
      | cons q qs => simpa using h
    simp only [gRowAux, List.getD_cons_succ]
    have hv : max (max (p0 + s (x.getD i ' ') y[k])
                 (pRest.headD 0 + s (x.getD i ' ') gapSym))
            (dpG s x y (i + 1) k + s gapSym y[k]) = dpG s x y (i + 1) (k + 1) := by
      rw [hp0, hp1]
      have : dpG s x y (i + 1) (k + 1) =
          max (max (dpG s x y i k + s (x.getD i ' ') (y.getD k ' '))
                   (dpG s x y i (k + 1) + s (x.getD i ' ') gapSym))
              (dpG s x y (i + 1) k + s gapSym (y.getD k ' ')) := by
        simp [dpG]
      rw [hget] at this
      exact this.symm
    rw [hv]
    have hrest : ∀ t, t ≤ y.length - (k + 1) → pRest.getD t 0 = dpG s x y i (k + 1 + t) := by
      intro t ht
      have := hvals (t + 1) (by omega)
      simpa [Nat.add_assoc, Nat.add_comm 1 t] using this
    have := ih (k + 1) pRest (by simp at hlen; omega) hrest (by omega)
    rw [this]
    congr 1
    omega

theorem gRows_getD (s : Char → Char → Int) (x y : List Char) :
    ∀ (r i' : Nat) (p : List Int),
      p.length = y.length + 1 →
      (∀ t, t ≤ y.length → p.getD t 0 = dpG s x y i' t) →
      r < x.length - i' →
      ∀ j, j ≤ y.length →
        ((gRows s y p (x.drop i')).getD r []).getD j 0 = dpG s x y (i' + 1 + r) j := by
  intro r
  induction r with
  | zero =>
    intro i' p hlen hvals hr j hj
    have hilt : i' < x.length := by omega
    have hgetx : x.getD i' ' ' = x[i'] := List.getD_eq_getElem x ' ' hilt
    have h0 : p.headD 0 = dpG s x y i' 0 := by
      have h := hvals 0 (by omega)
      cases p with
      | nil => simp at hlen
      | cons q qs => simpa using h
    have hc0 : p.headD 0 + s (x.getD i' ' ') gapSym = dpG s x y (i' + 1) 0 := by
      rw [h0]; simp [dpG]
    have hrows : gRows s y p (x.drop i') =
        (dpG s x y (i' + 1) 0 ::
            gRowAux s (x.getD i' ' ') p (dpG s x y (i' + 1) 0) y) ::
          gRows s y (dpG s x y (i' + 1) 0 ::
            gRowAux s (x.getD i' ' ') p (dpG s x y (i' + 1) 0) y) (x.drop (i' + 1)) := by
      conv_lhs => rw [List.drop_eq_getElem_cons hilt]
      simp only [gRows]
      rw [← hgetx, hc0]
    rw [hrows]
    simp only [List.getD_cons_zero]
    cases j with
    | zero => simp
    | succ j' =>
      simp only [List.getD_cons_succ]
      have := gRowAux_getD s x y i' j' 0 p (by omega)
        (by intro t ht; simpa using hvals t (by omega)) (by omega)
      simp only [List.drop_zero] at this
      simpa [Nat.add_comm] using this
  | succ r ih =>
    intro i' p hlen hvals hr j hj
    have hilt : i' < x.length := by omega
    have hgetx : x.getD i' ' ' = x[i'] := List.getD_eq_getElem x ' ' hilt
    have h0 : p.headD 0 = dpG s x y i' 0 := by
      have h := hvals 0 (by omega)
      cases p with
      | nil => simp at hlen
      | cons q qs => simpa using h
    have hc0 : p.headD 0 + s (x.getD i' ' ') gapSym = dpG s x y (i' + 1) 0 := by
      rw [h0]; simp [dpG]
    have hrows : gRows s y p (x.drop i') =
        (dpG s x y (i' + 1) 0 ::
            gRowAux s (x.getD i' ' ') p (dpG s x y (i' + 1) 0) y) ::
          gRows s y (dpG s x y (i' + 1) 0 ::
            gRowAux s (x.getD i' ' ') p (dpG s x y (i' + 1) 0) y) (x.drop (i' + 1)) := by
      conv_lhs => rw [List.drop_eq_getElem_cons hilt]
      simp only [gRows]
      rw [← hgetx, hc0]
    rw [hrows]
    simp only [List.getD_cons_succ]
    have hrowlen : (dpG s x y (i' + 1) 0 ::
        gRowAux s (x.getD i' ' ') p (dpG s x y (i' + 1) 0) y).length = y.length + 1 := by
      simp [gRowAux_length, hlen]
    have hrowvals : ∀ t, t ≤ y.length →
        (dpG s x y (i' + 1) 0 ::
          gRowAux s (x.getD i' ' ') p (dpG s x y (i' + 1) 0) y).getD t 0 =
          dpG s x y (i' + 1) t := by
      intro t ht
      cases t with
      | zero => simp
      | succ t' =>
        simp only [List.getD_cons_succ]
        have := gRowAux_getD s x y i' t' 0 p (by omega)
          (by intro u hu; simpa using hvals u (by omega)) (by omega)
        simp only [List.drop_zero] at this
        simpa [Nat.add_comm] using this
    have := ih (i' + 1) _ hrowlen hrowvals (by omega) j hj
    rw [this]
    congr 1
    omega

theorem dpLook_gTable (s : Char → Char → Int) (x y : List Char)
    {i j : Nat} (hi : i ≤ x.length) (hj : j ≤ y.length) :
    dpLook (gTable s x y) i j = dpG s x y i j := by
  unfold dpLook gTable
  cases i with
  | zero =>
    simpa using dpG_row0 s x y j hj
  | succ r =>
    simp only [List.getD_cons_succ]
    have := gRows_getD s x y r 0 (gRow0 s y 0) (gRow0_length s y 0)
      (fun t ht => dpG_row0 s x y t ht) (by omega) j hj
    simp only [List.drop_zero] at this
    rw [this]
    congr 1
    omega

/-! Bridge between the executable local DP table and the recurrence `dpL`. -/

theorem getD_replicate_zero : ∀ (k t : Nat), (List.replicate k (0 : Int)).getD t 0 = 0 := by
  intro k
  induction k with
  | zero => intro t; simp
  | succ k ih =>
    intro t
    cases t with
    | zero => simp [List.replicate_succ]
    | succ t' => simp [List.replicate_succ, ih t']

theorem lRowAux_length (s : Char → Char → Int) (xi : Char) :
    ∀ (p : List Int) (a : Int) (cs : List Char),
      (lRowAux s xi p a cs).length = min p.length cs.length := by
  intro p
  induction p with
  | nil => intro a cs; cases cs <;> simp [lRowAux]
  | cons q qs ih =>
    intro a cs
    cases cs with
    | nil => simp [lRowAux]
    | cons c cs' => simp [lRowAux, ih]; omega

theorem lRowAux_getD (s : Char → Char → Int) (x y : List Char) (i : Nat) :
    ∀ (j k : Nat) (p : List Int) (lft : Int),
      lft = dpL s x y (i + 1) k →
      p.length = y.length + 1 - k →
      (∀ t, t ≤ y.length - k → p.getD t 0 = dpL s x y i (k + t)) →
      j < y.length - k →
      (lRowAux s (x.getD i ' ') p lft (y.drop k)).getD j 0 =
        dpL s x y (i + 1) (k + 1 + j) := by
  intro j
  induction j with
  | zero =>
    intro k p lft hlft hlen hvals hj
    have hklt : k < y.length := by omega
    have hget : y.getD k ' ' = y[k] := List.getD_eq_getElem y ' ' hklt
    rw [List.drop_eq_getElem_cons hklt]
    obtain ⟨p0, pRest, rfl⟩ : ∃ p0 pRest, p = p0 :: pRest := by
      cases p with
      | nil => simp at hlen; omega
      | cons a b => exact ⟨a, b, rfl⟩
    have hp0 : p0 = dpL s x y i k := by simpa using hvals 0 (by omega)
    have hp1 : pRest.headD 0 = dpL s x y i (k + 1) := by
      have h := hvals 1 (by omega)
      cases pRest with
      | nil => simpa using h
      | cons q qs => simpa using h
    simp only [lRowAux, List.getD_cons_zero]
    rw [hp0, hp1, hlft]
    have : dpL s x y (i + 1) (k + 1) =
        max 0 (max (dpL s x y i k + s (x.getD i ' ') (y.getD k ' '))
                   (max (dpL s x y i (k + 1) + s (x.getD i ' ') gapSym)
                        (dpL s x y (i + 1) k + s gapSym (y.getD k ' ')))) := by
      simp [dpL]
    rw [hget] at this
    simpa using this.symm
  | succ j ih =>
    intro k p lft hlft hlen hvals hj
    have hklt : k < y.length := by omega
    have hget : y.getD k ' ' = y[k] := List.getD_eq_getElem y ' ' hklt
    rw [List.drop_eq_getElem_cons hklt]
    obtain ⟨p0, pRest, rfl⟩ : ∃ p0 pRest, p = p0 :: pRest := by
      cases p with
      | nil => simp at hlen; omega
      | cons a b => exact ⟨a, b, rfl⟩
    have hp0 : p0 = dpL s x y i k := by simpa using hvals 0 (by omega)
    have hp1 : pRest.headD 0 = dpL s x y i (k + 1) := by
      have h := hvals 1 (by omega)
      cases pRest with
      | nil => simpa using h
      | cons q qs => simpa using h
    simp only [lRowAux, List.getD_cons_succ]
    have hv : max 0 (max (p0 + s (x.getD i ' ') y[k])
                 (max (pRest.headD 0 + s (x.getD i ' ') gapSym)
                      (lft + s gapSym y[k]))) = dpL s x y (i + 1) (k + 1) := by
      rw [hp0, hp1, hlft]
      have : dpL s x y (i + 1) (k + 1) =
          max 0 (max (dpL s x y i k + s (x.getD i ' ') (y.getD k ' '))
                     (max (dpL s x y i (k + 1) + s (x.getD i ' ') gapSym)
                          (dpL s x y (i + 1) k + s gapSym (y.getD k ' ')))) := by
        simp [dpL]
      rw [hget] at this
      exact this.symm
    rw [hv]
    have hrest : ∀ t, t ≤ y.length - (k + 1) → pRest.getD t 0 = dpL s x y i (k + 1 + t) := by
      intro t ht
      have := hvals (t + 1) (by omega)
      simpa [Nat.add_assoc, Nat.add_comm 1 t] using this
    have := ih (k + 1) pRest (dpL s x y (i + 1) (k + 1)) rfl
      (by simp at hlen; omega) hrest (by omega)
    rw [this]
    congr 1
    omega

theorem lRows_getD (s : Char → Char → Int) (x y : List Char) :
    ∀ (r i' : Nat) (p : List Int),
      p.length = y.length + 1 →
      (∀ t, t ≤ y.length → p.getD t 0 = dpL s x y i' t) →
      r < x.length - i' →
      ∀ j, j ≤ y.length →
        ((lRows s y p (x.drop i')).getD r []).getD j 0 = dpL s x y (i' + 1 + r) j := by
  intro r
  induction r with
  | zero =>
    intro i' p hlen hvals hr j hj
    have hilt : i' < x.length := by omega
    have hgetx : x.getD i' ' ' = x[i'] := List.getD_eq_getElem x ' ' hilt
    have hrows : lRows s y p (x.drop i') =
        (0 :: lRowAux s (x.getD i' ' ') p 0 y) ::
          lRows s y (0 :: lRowAux s (x.getD i' ' ') p 0 y) (x.drop (i' + 1)) := by
      conv_lhs => rw [List.drop_eq_getElem_cons hilt]
      simp only [lRows]
      rw [← hgetx]
    rw [hrows]
    simp only [List.getD_cons_zero]
    cases j with
    | zero => simp [dpL]
    | succ j' =>
      simp only [List.getD_cons_succ]
      have := lRowAux_getD s x y i' j' 0 p 0 (by simp [dpL]) (by omega)
        (by intro t ht; simpa using hvals t (by omega)) (by omega)
      simp only [List.drop_zero] at this
      simpa [Nat.add_comm] using this
  | succ r ih =>
    intro i' p hlen hvals hr j hj
    have hilt : i' < x.length := by omega
    have hgetx : x.getD i' ' ' = x[i'] := List.getD_eq_getElem x ' ' hilt
    have hrows : lRows s y p (x.drop i') =
        (0 :: lRowAux s (x.getD i' ' ') p 0 y) ::
          lRows s y (0 :: lRowAux s (x.getD i' ' ') p 0 y) (x.drop (i' + 1)) := by
      conv_lhs => rw [List.drop_eq_getElem_cons hilt]
      simp only [lRows]
      rw [← hgetx]
    rw [hrows]
    simp only [List.getD_cons_succ]
    have hrowlen : (0 :: lRowAux s (x.getD i' ' ') p 0 y).length = y.length + 1 := by
      simp [lRowAux_length, hlen]
    have hrowvals : ∀ t, t ≤ y.length →
        (0 :: lRowAux s (x.getD i' ' ') p 0 y).getD t 0 = dpL s x y (i' + 1) t := by
      intro t ht
      cases t with
      | zero => simp [dpL]
      | succ t' =>
        simp only [List.getD_cons_succ]
        have := lRowAux_getD s x y i' t' 0 p 0 (by simp [dpL]) (by omega)
          (by intro u hu; simpa using hvals u (by omega)) (by omega)
        simp only [List.drop_zero] at this
        simpa [Nat.add_comm] using this
    have := ih (i' + 1) _ hrowlen hrowvals (by omega) j hj
    rw [this]
    congr 1
    omega

theorem dpLook_lTable (s : Char → Char → Int) (x y : List Char)
    {i j : Nat} (hi : i ≤ x.length) (hj : j ≤ y.length) :
    dpLook (lTable s x y) i j = dpL s x y i j := by
  unfold dpLook lTable
  cases i with
  | zero =>
    simp only [List.getD_cons_zero]
    rw [getD_replicate_zero]
    simp [dpL]
  | succ r =>
    simp only [List.getD_cons_succ]
    have := lRows_getD s x y r 0 (List.replicate (y.length + 1) 0)
      (by simp)
      (fun t ht => by rw [getD_replicate_zero]; simp [dpL]) (by omega) j hj
    simp only [List.drop_zero] at this
    rw [this]
    congr 1
    omega

/-! Properties of the global traceback. -/

theorem gDiag_of_not_up_left (s : Char → Char → Int) (x y : List Char) (i j : Nat)
    (h1 : ¬(i = 0 ∧ j = 0))
    (h2 : ¬(0 < i ∧ dpG s x y i j = dpG s x y (i - 1) j + s (x.getD (i - 1) ' ') gapSym))
    (h3 : ¬(0 < j ∧ dpG s x y i j = dpG s x y i (j - 1) + s gapSym (y.getD (j - 1) ' '))) :
    0 < i ∧ 0 < j ∧
      dpG s x y i j =
        dpG s x y (i - 1) (j - 1) + s (x.getD (i - 1) ' ') (y.getD (j - 1) ' ') := by
  match i, j with
  | 0, 0 => exact absurd ⟨rfl, rfl⟩ h1
  | 0, j + 1 =>
    exfalso
    apply h3
    refine ⟨Nat.succ_pos j, ?_⟩
    simp [dpG]
  | i + 1, 0 =>
    exfalso
    apply h2
    refine ⟨Nat.succ_pos i, ?_⟩
    simp [dpG]
  | i + 1, j + 1 =>
    refine ⟨Nat.succ_pos i, Nat.succ_pos j, ?_⟩
    have hmax : dpG s x y (i + 1) (j + 1) =
        max (max (dpG s x y i j + s (x.getD i ' ') (y.getD j ' '))
                 (dpG s x y i (j + 1) + s (x.getD i ' ') gapSym))
            (dpG s x y (i + 1) j + s gapSym (y.getD j ' ')) := by
      simp [dpG]
    rcases eq_of_max3 hmax with h | h | h
    · simpa using h
    · exact absurd ⟨Nat.succ_pos i, by simpa using h⟩ h2
    · exact absurd ⟨Nat.succ_pos j, by simpa using h⟩ h3

theorem gTraceback_congr (s : Char → Char → Int) (x y : List Char)
    (dpf1 dpf2 : Nat → Nat → Int) :
    ∀ (N i j : Nat) (acc : List Char × List Char), i + j ≤ N →
      (∀ i' j', i' ≤ i → j' ≤ j → dpf1 i' j' = dpf2 i' j') →
      gTraceback s x y dpf1 i j acc = gTraceback s x y dpf2 i j acc := by
  intro N
  induction N with
  | zero =>
    intro i j acc hN _
    have hi : i = 0 := by omega
    have hj : j = 0 := by omega
    subst hi; subst hj
    conv_lhs => rw [gTraceback]
    conv_rhs => rw [gTraceback]
    simp
  | succ N ih =>
    intro i j acc hN hagree
    by_cases h1 : i = 0 ∧ j = 0
    · conv_lhs => rw [gTraceback]
      conv_rhs => rw [gTraceback]
      rw [dif_pos h1, dif_pos h1]
    · have e00 : dpf1 i j = dpf2 i j := hagree i j le_rfl le_rfl
      have e10 : dpf1 (i - 1) j = dpf2 (i - 1) j := hagree _ _ (Nat.sub_le i 1) le_rfl
      have e01 : dpf1 i (j - 1) = dpf2 i (j - 1) := hagree _ _ le_rfl (Nat.sub_le j 1)
      conv_lhs => rw [gTraceback]
      conv_rhs => rw [gTraceback]
      simp only [e00, e10, e01]
      split_ifs with hA hB
      · obtain ⟨hi2, -⟩ := hA
        exact ih _ _ _ (by omega) (fun a b ha hb => hagree a b (by omega) (by omega))
      · obtain ⟨hj3, -⟩ := hB
        exact ih _ _ _ (by omega) (fun a b ha hb => hagree a b (by omega) (by omega))
      · exact ih _ _ _ (by omega) (fun a b ha hb => hagree a b (by omega) (by omega))

theorem gTraceF_eq_gTraceback (s : Char → Char → Int) (x y : List Char)
    (dpf : Nat → Nat → Int) :
    ∀ (fuel i j : Nat) (acc : List Char × List Char), i + j ≤ fuel →
      gTraceF s x y dpf fuel i j acc = some (gTraceback s x y dpf i j acc) := by
  intro fuel
  induction fuel with
  | zero =>
    intro i j acc h
    have hi : i = 0 := by omega
    have hj : j = 0 := by omega
    subst hi; subst hj
    rw [gTraceback]
    simp [gTraceF]
  | succ fuel ih =>
    intro i j acc h
    rw [gTraceback]
    by_cases h1 : i = 0 ∧ j = 0
    · simp [gTraceF, h1]
    · by_cases h2 : 0 < i ∧ dpf i j = dpf (i - 1) j + s (x.getD (i - 1) ' ') gapSym
      · obtain ⟨hi2, -⟩ := id h2
        simp only [gTraceF, if_neg h1, if_pos h2, dif_neg h1, dif_pos h2]
        exact ih _ _ _ (by omega)
      · by_cases h3 : 0 < j ∧ dpf i j = dpf i (j - 1) + s gapSym (y.getD (j - 1) ' ')
        · obtain ⟨hj3, -⟩ := id h3
          simp only [gTraceF, if_neg h1, if_neg h2, if_pos h3, dif_neg h1, dif_neg h2,
            dif_pos h3]
          exact ih _ _ _ (by omega)
        · simp only [gTraceF, if_neg h1, if_neg h2, if_neg h3, dif_neg h1, dif_neg h2,
            dif_neg h3]
          exact ih _ _ _ (by omega)

/-! Column scores. -/

theorem columnScore_gapRight (s : Char → Char → Int) (a : Char) :
    columnScore s a gapMark = s a gapSym := by
  simp [columnScore]

theorem columnScore_gapLeft (s : Char → Char → Int) (b : Char) (hb : b ≠ gapMark) :
    columnScore s gapMark b = s gapSym b := by
  simp [columnScore, hb]

theorem columnScore_sym (s : Char → Char → Int) (a b : Char)
    (ha : a ≠ gapMark) (hb : b ≠ gapMark) : columnScore s a b = s a b := by
  simp [columnScore, ha, hb]

theorem getD_ne_gapMark {l : List Char} {k : Nat} (h : gapMark ∉ l) {d : Char}
    (hd : d ≠ gapMark) : l.getD k d ≠ gapMark := by
  by_cases hk : k < l.length
  · intro hEq; exact h (hEq ▸ getD_mem hk d)
  · rw [List.getD_eq_default _ _ (by omega)]; exact hd

theorem space_ne_gapMark : (' ' : Char) ≠ gapMark := by decide

/-! Telescoping: the global traceback's alignment re-scores to `dp[i][j]`. -/

theorem gTraceback_score (s : Char → Char → Int) (x y : List Char)
    (hx : gapMark ∉ x) (hy : gapMark ∉ y) :
    ∀ (N i j : Nat) (acc : List Char × List Char),
      i + j ≤ N → i ≤ x.length → j ≤ y.length →
      alignScore s (gTraceback s x y (dpG s x y) i j acc).1
          (gTraceback s x y (dpG s x y) i j acc).2 =
        dpG s x y i j + alignScore s acc.1 acc.2 := by
  intro N
  induction N with
  | zero =>
    intro i j acc hN _ _
    have hi : i = 0 := by omega
    have hj : j = 0 := by omega
    subst hi; subst hj
    rw [gTraceback]
    simp [dpG]
  | succ N ih =>
    intro i j acc hN hi hj
    by_cases h1 : i = 0 ∧ j = 0
    · obtain ⟨rfl, rfl⟩ := h1
      rw [gTraceback]
      simp [dpG]
    · rw [gTraceback]
      by_cases h2 : 0 < i ∧ dpG s x y i j = dpG s x y (i - 1) j + s (x.getD (i - 1) ' ') gapSym
      · obtain ⟨hi2, he2⟩ := id h2
        rw [dif_neg h1, dif_pos h2]
        rw [ih (i - 1) j _ (by omega) (by omega) hj]
        rw [show alignScore s (x.getD (i - 1) ' ' :: acc.1) (gapMark :: acc.2) =
          columnScore s (x.getD (i - 1) ' ') gapMark + alignScore s acc.1 acc.2 from rfl]
        rw [columnScore_gapRight, he2]
        ring
      · by_cases h3 : 0 < j ∧ dpG s x y i j = dpG s x y i (j - 1) + s gapSym (y.getD (j - 1) ' ')
        · obtain ⟨hj3, he3⟩ := id h3
          rw [dif_neg h1, dif_neg h2, dif_pos h3]
          rw [ih i (j - 1) _ (by omega) hi (by omega)]
          have hyc : y.getD (j - 1) ' ' ≠ gapMark := getD_ne_gapMark hy space_ne_gapMark
          rw [show alignScore s (gapMark :: acc.1) (y.getD (j - 1) ' ' :: acc.2) =
            columnScore s gapMark (y.getD (j - 1) ' ') + alignScore s acc.1 acc.2 from rfl]
          rw [columnScore_gapLeft s _ hyc, he3]
          ring
        · obtain ⟨hi4, hj4, he4⟩ := gDiag_of_not_up_left s x y i j h1 h2 h3
          rw [dif_neg h1, dif_neg h2, dif_neg h3]
          rw [ih (i - 1) (j - 1) _ (by omega) (by omega) (by omega)]
          have hxc : x.getD (i - 1) ' ' ≠ gapMark := getD_ne_gapMark hx space_ne_gapMark
          have hyc : y.getD (j - 1) ' ' ≠ gapMark := getD_ne_gapMark hy space_ne_gapMark
          rw [show alignScore s (x.getD (i - 1) ' ' :: acc.1) (y.getD (j - 1) ' ' :: acc.2) =
            columnScore s (x.getD (i - 1) ' ') (y.getD (j - 1) ' ') +
              alignScore s acc.1 acc.2 from rfl]
          rw [columnScore_sym s _ _ hxc hyc, he4]
          ring

/-! Gap removal. -/

theorem removeGaps_nil : removeGaps [] = [] := rfl

theorem removeGaps_cons_ne (c : Char) (l : List Char) (h : c ≠ gapMark) :
    removeGaps (c :: l) = c :: removeGaps l := by
  simp [removeGaps, List.filter_cons, h]

theorem removeGaps_cons_gap (l : List Char) :
    removeGaps (gapMark :: l) = removeGaps l := by
  simp [removeGaps, List.filter_cons]

theorem removeGaps_append (l1 l2 : List Char) :
    removeGaps (l1 ++ l2) = removeGaps l1 ++ removeGaps l2 := by
  simp [removeGaps, List.filter_append]

theorem take_eq_take_sub_append (x : List Char) (i : Nat) (hi0 : 0 < i)
    (hi : i ≤ x.length) :
    x.take i = x.take (i - 1) ++ [x.getD (i - 1) ' '] := by
  have h := take_getD_succ (show i - 1 < x.length by omega) ' '
  rwa [show i - 1 + 1 = i by omega] at h

/-- Invariant of the global traceback: stripping the gap markers from the two
accumulated strings recovers the consumed prefixes of the inputs. -/
theorem gTraceback_ungapped (s : Char → Char → Int) (x y : List Char)
    (hx : gapMark ∉ x) (hy : gapMark ∉ y) :
    ∀ (N i j : Nat) (acc : List Char × List Char),
      i + j ≤ N → i ≤ x.length → j ≤ y.length →
      removeGaps (gTraceback s x y (dpG s x y) i j acc).1 =
          x.take i ++ removeGaps acc.1 ∧
        removeGaps (gTraceback s x y (dpG s x y) i j acc).2 =
          y.take j ++ removeGaps acc.2 := by
  intro N
  induction N with
  | zero =>
    intro i j acc hN _ _
    have hi : i = 0 := by omega
    have hj : j = 0 := by omega
    subst hi; subst hj
    rw [gTraceback]
    simp
  | succ N ih =>
    intro i j acc hN hi hj
    by_cases h1 : i = 0 ∧ j = 0
    · obtain ⟨rfl, rfl⟩ := h1
      rw [gTraceback]
      simp
    · rw [gTraceback]
      by_cases h2 : 0 < i ∧ dpG s x y i j = dpG s x y (i - 1) j + s (x.getD (i - 1) ' ') gapSym
      · obtain ⟨hi2, -⟩ := id h2
        rw [dif_neg h1, dif_pos h2]
        obtain ⟨ha, hb⟩ := ih (i - 1) j (x.getD (i - 1) ' ' :: acc.1, gapMark :: acc.2)
          (by omega) (by omega) hj
        have hxc : x.getD (i - 1) ' ' ≠ gapMark := getD_ne_gapMark hx space_ne_gapMark
        refine ⟨?_, ?_⟩
        · rw [ha]
          simp only [removeGaps_cons_ne _ _ hxc]
          rw [take_eq_take_sub_append x i hi2 hi]
          simp
        · rw [hb]
          simp only [removeGaps_cons_gap]
      · by_cases h3 : 0 < j ∧ dpG s x y i j = dpG s x y i (j - 1) + s gapSym (y.getD (j - 1) ' ')
        · obtain ⟨hj3, -⟩ := id h3
          rw [dif_neg h1, dif_neg h2, dif_pos h3]
          obtain ⟨ha, hb⟩ := ih i (j - 1) (gapMark :: acc.1, y.getD (j - 1) ' ' :: acc.2)
            (by omega) hi (by omega)
          have hyc : y.getD (j - 1) ' ' ≠ gapMark := getD_ne_gapMark hy space_ne_gapMark
          refine ⟨?_, ?_⟩
          · rw [ha]
            simp only [removeGaps_cons_gap]
          · rw [hb]
            simp only [removeGaps_cons_ne _ _ hyc]
            rw [take_eq_take_sub_append y j hj3 hj]
            simp
        · obtain ⟨hi4, hj4, -⟩ := gDiag_of_not_up_left s x y i j h1 h2 h3
          rw [dif_neg h1, dif_neg h2, dif_neg h3]
          obtain ⟨ha, hb⟩ := ih (i - 1) (j - 1)
            (x.getD (i - 1) ' ' :: acc.1, y.getD (j - 1) ' ' :: acc.2)
            (by omega) (by omega) (by omega)
          have hxc : x.getD (i - 1) ' ' ≠ gapMark := getD_ne_gapMark hx space_ne_gapMark
          have hyc : y.getD (j - 1) ' ' ≠ gapMark := getD_ne_gapMark hy space_ne_gapMark
          refine ⟨?_, ?_⟩
          · rw [ha]
            simp only [removeGaps_cons_ne _ _ hxc]
            rw [take_eq_take_sub_append x i hi4 hi]
            simp
          · rw [hb]
            simp only [removeGaps_cons_ne _ _ hyc]
            rw [take_eq_take_sub_append y j hj4 hj]
            simp

/-! Shape of the global traceback output: equal lengths and no double-gap
column. -/

theorem noBothGap_nil : noBothGap [] [] := by
  intro p hp
  simp at hp

theorem noBothGap_cons {a b : Char} {l1 l2 : List Char}
    (h : ¬(a = gapMark ∧ b = gapMark)) (h' : noBothGap l1 l2) :
    noBothGap (a :: l1) (b :: l2) := by
  intro p hp
  rw [List.zip_cons_cons] at hp
  rcases List.mem_cons.mp hp with rfl | hp'
  · exact h
  · exact h' p hp'

theorem gTraceback_shape (s : Char → Char → Int) (x y : List Char)
    (hx : gapMark ∉ x) (hy : gapMark ∉ y) (dpf : Nat → Nat → Int) :
    ∀ (N i j : Nat) (acc : List Char × List Char), i + j ≤ N →
      (acc.1.length = acc.2.length →
        (gTraceback s x y dpf i j acc).1.length =
          (gTraceback s x y dpf i j acc).2.length) ∧
      (noBothGap acc.1 acc.2 →
        noBothGap (gTraceback s x y dpf i j acc).1 (gTraceback s x y dpf i j acc).2) := by
  intro N
  induction N with
  | zero =>
    intro i j acc hN
    have hi : i = 0 := by omega
    have hj : j = 0 := by omega
    subst hi; subst hj
    rw [gTraceback]
    exact ⟨fun h => h, fun h => h⟩
  | succ N ih =>
    intro i j acc hN
    by_cases h1 : i = 0 ∧ j = 0
    · rw [gTraceback, dif_pos h1]
      exact ⟨fun h => h, fun h => h⟩
    · rw [gTraceback]
      have hxc : x.getD (i - 1) ' ' ≠ gapMark := getD_ne_gapMark hx space_ne_gapMark
      have hyc : y.getD (j - 1) ' ' ≠ gapMark := getD_ne_gapMark hy space_ne_gapMark
      by_cases h2 : 0 < i ∧ dpf i j = dpf (i - 1) j + s (x.getD (i - 1) ' ') gapSym
      · obtain ⟨hi2, -⟩ := id h2
        rw [dif_neg h1, dif_pos h2]
        obtain ⟨hlen, hgap⟩ := ih (i - 1) j (x.getD (i - 1) ' ' :: acc.1, gapMark :: acc.2)
          (by omega)
        refine ⟨fun h => hlen (by simpa using h), fun h => hgap ?_⟩
        exact noBothGap_cons (fun hc => hxc hc.1) h
      · by_cases h3 : 0 < j ∧ dpf i j = dpf i (j - 1) + s gapSym (y.getD (j - 1) ' ')
        · obtain ⟨hj3, -⟩ := id h3
          rw [dif_neg h1, dif_neg h2, dif_pos h3]
          obtain ⟨hlen, hgap⟩ := ih i (j - 1) (gapMark :: acc.1, y.getD (j - 1) ' ' :: acc.2)
            (by omega)
          refine ⟨fun h => hlen (by simpa using h), fun h => hgap ?_⟩
          exact noBothGap_cons (fun hc => hyc hc.2) h
        · rw [dif_neg h1, dif_neg h2, dif_neg h3]
          obtain ⟨hlen, hgap⟩ := ih (i - 1) (j - 1)
            (x.getD (i - 1) ' ' :: acc.1, y.getD (j - 1) ' ' :: acc.2)
            (by omega)
          refine ⟨fun h => hlen (by simpa using h), fun h => hgap ?_⟩
          exact noBothGap_cons (fun hc => hxc hc.1) h

/-- Normal form of `global_alignment`: the executable definition equals the
traceback over the recurrence `dpG`, and the returned score is `dp[n][m]`. -/
theorem global_alignment_eq (x y : List Char) (s : Char → Char → Int) :
    global_alignment x y s =
      ((gTraceback s x y (dpG s x y) x.length y.length ([], [])).1,
       (gTraceback s x y (dpG s x y) x.length y.length ([], [])).2,
       dpG s x y x.length y.length) := by
  have hb : ∀ i' j', i' ≤ x.length → j' ≤ y.length →
      dpLook (gTable s x y) i' j' = dpG s x y i' j' :=
    fun i' j' hi hj => dpLook_gTable s x y hi hj
  unfold global_alignment
  dsimp only
  rw [gTraceF_eq_gTraceback s x y _ (x.length + y.length) x.length y.length ([], []) le_rfl]
  rw [gTraceback_congr s x y _ _ (x.length + y.length) x.length y.length ([], []) le_rfl hb]
  rw [hb x.length y.length le_rfl le_rfl]
  simp

/-! Properties of the local traceback tags. -/

theorem tagT_cases (s : Char → Char → Int) (x y : List Char) (dpf : Nat → Nat → Int) :
    ∀ i j, tagT s x y dpf i j = 0 ∨ tagT s x y dpf i j = 1 ∨
      tagT s x y dpf i j = 2 ∨ tagT s x y dpf i j = 3
  | 0, j => by simp [tagT]
  | i + 1, 0 => by simp [tagT]
  | i + 1, j + 1 => by
    simp only [tagT]
    split_ifs <;> simp

theorem tagT_eq_one (s : Char → Char → Int) (x y : List Char) (dpf : Nat → Nat → Int) :
    ∀ i j, tagT s x y dpf i j = 1 →
      0 < i ∧ 0 < j ∧ dpf i j ≠ 0 ∧
        dpf i j = dpf (i - 1) (j - 1) + s (x.getD (i - 1) ' ') (y.getD (j - 1) ' ')
  | 0, j, h => by simp [tagT] at h
  | i + 1, 0, h => by simp [tagT] at h
  | i + 1, j + 1, h => by
    simp only [tagT] at h
    split_ifs at h with hv hm hd hi'
    all_goals try omega
    exact ⟨Nat.succ_pos i, Nat.succ_pos j, hv, by simpa using hm⟩

theorem tagT_eq_two (s : Char → Char → Int) (x y : List Char) (dpf : Nat → Nat → Int) :
    ∀ i j, tagT s x y dpf i j = 2 →
      0 < i ∧ 0 < j ∧ dpf i j ≠ 0 ∧
        dpf i j = dpf (i - 1) j + s (x.getD (i - 1) ' ') gapSym
  | 0, j, h => by simp [tagT] at h
  | i + 1, 0, h => by simp [tagT] at h
  | i + 1, j + 1, h => by
    simp only [tagT] at h
    split_ifs at h with hv hm hd hi'
    all_goals try omega
    exact ⟨Nat.succ_pos i, Nat.succ_pos j, hv, by simpa using hd⟩

theorem tagT_eq_three (s : Char → Char → Int) (x y : List Char) (dpf : Nat → Nat → Int) :
    ∀ i j, tagT s x y dpf i j = 3 →
      0 < i ∧ 0 < j ∧ dpf i j ≠ 0 ∧
        dpf i j = dpf i (j - 1) + s gapSym (y.getD (j - 1) ' ')
  | 0, j, h => by simp [tagT] at h
  | i + 1, 0, h => by simp [tagT] at h
  | i + 1, j + 1, h => by
    simp only [tagT] at h
    split_ifs at h with hv hm hd hi'
    all_goals try omega
    exact ⟨Nat.succ_pos i, Nat.succ_pos j, hv, by simpa using hi'⟩

/-- On the real local DP matrix a NONE tag means the cell's value is 0 (the
final `else 0` of `tagT` is unreachable because an interior cell equals one
of the four recurrence branches). -/
theorem tagL_zero (s : Char → Char → Int) (x y : List Char) :
    ∀ i j, tagT s x y (dpL s x y) i j = 0 → dpL s x y i j = 0
  | 0, j, _ => by simp [dpL]
  | i + 1, 0, _ => by simp [dpL]
  | i + 1, j + 1, h => by
    have hmax : dpL s x y (i + 1) (j + 1) =
        max 0 (max (dpL s x y i j + s (x.getD i ' ') (y.getD j ' '))
                   (max (dpL s x y i (j + 1) + s (x.getD i ' ') gapSym)
                        (dpL s x y (i + 1) j + s gapSym (y.getD j ' ')))) := by
      simp [dpL]
    simp only [tagT] at h
    split_ifs at h with hv hm hd hi'
    · exact hv
    · rcases eq_of_max4 hmax with h0 | h0 | h0 | h0
      · exact h0
      · exact absurd h0 hm
      · exact absurd h0 hd
      · exact absurd h0 hi'

theorem tagT_congr (s : Char → Char → Int) (x y : List Char)
    (dpf1 dpf2 : Nat → Nat → Int) :
    ∀ i j, (∀ i' j', i' ≤ i → j' ≤ j → dpf1 i' j' = dpf2 i' j') →
      tagT s x y dpf1 i j = tagT s x y dpf2 i j
  | 0, j, _ => by simp [tagT]
  | i + 1, 0, _ => by simp [tagT]
  | i + 1, j + 1, hagree => by
    have e00 := hagree (i + 1) (j + 1) le_rfl le_rfl
    have e11 := hagree i j (by omega) (by omega)
    have e10 := hagree i (j + 1) (by omega) le_rfl
    have e01 := hagree (i + 1) j le_rfl (by omega)
    simp only [tagT, e00, e11, e10, e01]

/-! Properties of the local traceback. -/

theorem ltraceB_congr (s : Char → Char → Int) (x y : List Char)
    (dpf1 dpf2 : Nat → Nat → Int) :
    ∀ (N i j : Nat), i + j ≤ N →
      (∀ i' j', i' ≤ i → j' ≤ j → dpf1 i' j' = dpf2 i' j') →
      ltraceB s x y dpf1 i j = ltraceB s x y dpf2 i j := by
  intro N
  induction N with
  | zero =>
    intro i j hN _
    have hi : i = 0 := by omega
    have hj : j = 0 := by omega
    subst hi; subst hj
    simp [ltraceB]
  | succ N ih =>
    intro i j hN hagree
    match i, j with
    | 0, j => simp [ltraceB]
    | i + 1, 0 => simp [ltraceB]
    | i + 1, j + 1 =>
      have htag := tagT_congr s x y dpf1 dpf2 (i + 1) (j + 1) hagree
      conv_lhs => rw [ltraceB]
      conv_rhs => rw [ltraceB]
      simp only [htag]
      split_ifs with hA hB hC
      · rw [ih i j (by omega) (fun a b ha hb => hagree a b (by omega) (by omega))]
      · rw [ih i (j + 1) (by omega) (fun a b ha hb => hagree a b (by omega) hb)]
      · rw [ih (i + 1) j (by omega) (fun a b ha hb => hagree a b ha (by omega))]
      · rfl

theorem lTraceF_eq_ltraceB (s : Char → Char → Int) (x y : List Char)
    (dpf : Nat → Nat → Int) :
    ∀ (fuel i j : Nat), i + j ≤ fuel →
      lTraceF s x y dpf fuel i j = some (ltraceB s x y dpf i j) := by
  intro fuel
  induction fuel with
  | zero =>
    intro i j h
    have hi : i = 0 := by omega
    have hj : j = 0 := by omega
    subst hi; subst hj
    simp [lTraceF, tagT, ltraceB]
  | succ fuel ih =>
    intro i j h
    match i, j with
    | 0, j =>
      simp [lTraceF, tagT, ltraceB]
    | i + 1, 0 =>
      simp [lTraceF, tagT, ltraceB]
    | i + 1, j + 1 =>
      conv_rhs => rw [ltraceB]
      by_cases hA : tagT s x y dpf (i + 1) (j + 1) = 1
      · simp only [lTraceF, hA, Nat.add_sub_cancel]
        rw [ih i j (by omega)]
        simp
      · by_cases hB : tagT s x y dpf (i + 1) (j + 1) = 2
        · simp only [lTraceF, hB, Nat.add_sub_cancel]
          rw [ih i (j + 1) (by omega)]
          simp
        · by_cases hC : tagT s x y dpf (i + 1) (j + 1) = 3
          · simp only [lTraceF, hC, Nat.add_sub_cancel]
            rw [ih (i + 1) j (by omega)]
            simp
          · have h0 : tagT s x y dpf (i + 1) (j + 1) = 0 := by
              rcases tagT_cases s x y dpf (i + 1) (j + 1) with h | h | h | h
              · exact h
              · exact absurd h hA
              · exact absurd h hB
              · exact absurd h hC
            simp only [lTraceF, h0, Nat.add_sub_cancel]
            simp

/-! Step equations for the local traceback. -/

theorem ltraceB_zero_left (s : Char → Char → Int) (x y : List Char)
    (dpf : Nat → Nat → Int) (j : Nat) : ltraceB s x y dpf 0 j = ([], []) := by
  simp [ltraceB]

theorem ltraceB_zero_right (s : Char → Char → Int) (x y : List Char)
    (dpf : Nat → Nat → Int) (i : Nat) : ltraceB s x y dpf (i + 1) 0 = ([], []) := by
  simp [ltraceB]

theorem ltraceB_of_tag1 {s : Char → Char → Int} {x y : List Char}
    {dpf : Nat → Nat → Int} {i j : Nat} (h : tagT s x y dpf (i + 1) (j + 1) = 1) :
    ltraceB s x y dpf (i + 1) (j + 1) =
      (x.getD i ' ' :: (ltraceB s x y dpf i j).1,
       y.getD j ' ' :: (ltraceB s x y dpf i j).2) := by
  conv_lhs => rw [ltraceB]
  simp [h]

theorem ltraceB_of_tag2 {s : Char → Char → Int} {x y : List Char}
    {dpf : Nat → Nat → Int} {i j : Nat} (h : tagT s x y dpf (i + 1) (j + 1) = 2) :
    ltraceB s x y dpf (i + 1) (j + 1) =
      (x.getD i ' ' :: (ltraceB s x y dpf i (j + 1)).1,
       gapMark :: (ltraceB s x y dpf i (j + 1)).2) := by
  conv_lhs => rw [ltraceB]
  simp [h]

theorem ltraceB_of_tag3 {s : Char → Char → Int} {x y : List Char}
    {dpf : Nat → Nat → Int} {i j : Nat} (h : tagT s x y dpf (i + 1) (j + 1) = 3) :
    ltraceB s x y dpf (i + 1) (j + 1) =
      (gapMark :: (ltraceB s x y dpf (i + 1) j).1,
       y.getD j ' ' :: (ltraceB s x y dpf (i + 1) j).2) := by
  conv_lhs => rw [ltraceB]
  simp [h]

theorem ltraceB_of_tag0 {s : Char → Char → Int} {x y : List Char}
    {dpf : Nat → Nat → Int} {i j : Nat} (h : tagT s x y dpf (i + 1) (j + 1) = 0) :
    ltraceB s x y dpf (i + 1) (j + 1) = ([], []) := by
  conv_lhs => rw [ltraceB]
  simp [h]

/-! Invariants of the local traceback. -/

theorem ltraceB_len (s : Char → Char → Int) (x y : List Char) (dpf : Nat → Nat → Int) :
    ∀ (N i j : Nat), i + j ≤ N →
      (ltraceB s x y dpf i j).1.length = (ltraceB s x y dpf i j).2.length := by
  intro N
  induction N with
  | zero =>
    intro i j hN
    have hi : i = 0 := by omega
    subst hi
    rw [ltraceB_zero_left]
  | succ N ih =>
    intro i j hN
    match i, j with
    | 0, j => rw [ltraceB_zero_left]
    | i + 1, 0 => rw [ltraceB_zero_right]
    | i + 1, j + 1 =>
      rcases tagT_cases s x y dpf (i + 1) (j + 1) with h | h | h | h
      · rw [ltraceB_of_tag0 h]
      · rw [ltraceB_of_tag1 h]
        simpa using ih i j (by omega)
      · rw [ltraceB_of_tag2 h]
        simpa using ih i (j + 1) (by omega)
      · rw [ltraceB_of_tag3 h]
        simpa using ih (i + 1) j (by omega)

/-- Telescoping: the local traceback's alignment re-scores to the cell value
it starts from. -/
theorem ltraceB_score (s : Char → Char → Int) (x y : List Char)
    (hx : gapMark ∉ x) (hy : gapMark ∉ y) :
    ∀ (N i j : Nat), i + j ≤ N → i ≤ x.length → j ≤ y.length →
      alignScore s (ltraceB s x y (dpL s x y) i j).1 (ltraceB s x y (dpL s x y) i j).2 =
        dpL s x y i j := by
  intro N
  induction N with
  | zero =>
    intro i j hN _ _
    have hi : i = 0 := by omega
    subst hi
    rw [ltraceB_zero_left]
    simp [alignScore, dpL]
  | succ N ih =>
    intro i j hN hi hj
    match i, j with
    | 0, j =>
      rw [ltraceB_zero_left]
      simp [alignScore, dpL]
    | i + 1, 0 =>
      rw [ltraceB_zero_right]
      simp [alignScore, dpL]
    | i + 1, j + 1 =>
      have hxc : x.getD i ' ' ≠ gapMark := getD_ne_gapMark hx space_ne_gapMark
      have hyc : y.getD j ' ' ≠ gapMark := getD_ne_gapMark hy space_ne_gapMark
      rcases tagT_cases s x y (dpL s x y) (i + 1) (j + 1) with h | h | h | h
      · rw [ltraceB_of_tag0 h]
        rw [tagL_zero s x y (i + 1) (j + 1) h]
        simp [alignScore]
      · rw [ltraceB_of_tag1 h]
        have he : dpL s x y (i + 1) (j + 1) =
            dpL s x y i j + s (x.getD i ' ') (y.getD j ' ') := by
          simpa using (tagT_eq_one s x y (dpL s x y) (i + 1) (j + 1) h).2.2.2
        rw [show alignScore s (x.getD i ' ' :: (ltraceB s x y (dpL s x y) i j).1)
              (y.getD j ' ' :: (ltraceB s x y (dpL s x y) i j).2) =
            columnScore s (x.getD i ' ') (y.getD j ' ') +
              alignScore s (ltraceB s x y (dpL s x y) i j).1
                (ltraceB s x y (dpL s x y) i j).2 from rfl]
        rw [columnScore_sym s _ _ hxc hyc, ih i j (by omega) (by omega) (by omega), he]
        ring
      · rw [ltraceB_of_tag2 h]
        have he : dpL s x y (i + 1) (j + 1) =
            dpL s x y i (j + 1) + s (x.getD i ' ') gapSym := by
          simpa using (tagT_eq_two s x y (dpL s x y) (i + 1) (j + 1) h).2.2.2
        rw [show alignScore s (x.getD i ' ' :: (ltraceB s x y (dpL s x y) i (j + 1)).1)
              (gapMark :: (ltraceB s x y (dpL s x y) i (j + 1)).2) =
            columnScore s (x.getD i ' ') gapMark +
              alignScore s (ltraceB s x y (dpL s x y) i (j + 1)).1
                (ltraceB s x y (dpL s x y) i (j + 1)).2 from rfl]
        rw [columnScore_gapRight, ih i (j + 1) (by omega) (by omega) hj, he]
        ring
      · rw [ltraceB_of_tag3 h]
        have he : dpL s x y (i + 1) (j + 1) =
            dpL s x y (i + 1) j + s gapSym (y.getD j ' ') := by
          simpa using (tagT_eq_three s x y (dpL s x y) (i + 1) (j + 1) h).2.2.2
        rw [show alignScore s (gapMark :: (ltraceB s x y (dpL s x y) (i + 1) j).1)
              (y.getD j ' ' :: (ltraceB s x y (dpL s x y) (i + 1) j).2) =
            columnScore s gapMark (y.getD j ' ') +
              alignScore s (ltraceB s x y (dpL s x y) (i + 1) j).1
                (ltraceB s x y (dpL s x y) (i + 1) j).2 from rfl]
        rw [columnScore_gapLeft s _ hyc, ih (i + 1) j (by omega) hi (by omega), he]
        ring

/-- Invariant of the local traceback: stripping gap markers from the
(reversed) accumulated strings yields contiguous segments of the inputs that
end exactly at the start cell. -/
theorem ltraceB_segment (s : Char → Char → Int) (x y : List Char)
    (hx : gapMark ∉ x) (hy : gapMark ∉ y) :
    ∀ (N i j : Nat), i + j ≤ N → i ≤ x.length → j ≤ y.length →
      ∃ i0 j0, i0 ≤ i ∧ j0 ≤ j ∧
        removeGaps (ltraceB s x y (dpL s x y) i j).1.reverse = (x.take i).drop i0 ∧
        removeGaps (ltraceB s x y (dpL s x y) i j).2.reverse = (y.take j).drop j0 := by
  intro N
  induction N with
  | zero =>
    intro i j hN _ _
    have hi : i = 0 := by omega
    have hj : j = 0 := by omega
    subst hi; subst hj
    exact ⟨0, 0, le_rfl, le_rfl, by simp [ltraceB_zero_left, removeGaps], by
      simp [ltraceB_zero_left, removeGaps]⟩
  | succ N ih =>
    intro i j hN hi hj
    match i, j with
    | 0, j =>
      refine ⟨0, j, le_rfl, le_rfl, ?_, ?_⟩
      · simp [ltraceB_zero_left, removeGaps]
      · rw [ltraceB_zero_left]
        have : ((y.take j).drop j) = [] :=
          List.drop_eq_nil_of_le (by simp [List.length_take])

        simp [removeGaps, this]
    | i + 1, 0 =>
      refine ⟨i + 1, 0, le_rfl, le_rfl, ?_, ?_⟩
      · rw [ltraceB_zero_right]
        have : ((x.take (i + 1)).drop (i + 1)) = [] :=
          List.drop_eq_nil_of_le (by simp [List.length_take])
        simp [removeGaps, this]
      · simp [ltraceB_zero_right, removeGaps]
    | i + 1, j + 1 =>
      have hxc : x.getD i ' ' ≠ gapMark := getD_ne_gapMark hx space_ne_gapMark
      have hyc : y.getD j ' ' ≠ gapMark := getD_ne_gapMark hy space_ne_gapMark
      have hxstep : (x.take (i + 1)) = x.take i ++ [x.getD i ' '] :=
        take_getD_succ (by omega) ' '
      have hystep : (y.take (j + 1)) = y.take j ++ [y.getD j ' '] :=
        take_getD_succ (by omega) ' '
      rcases tagT_cases s x y (dpL s x y) (i + 1) (j + 1) with h | h | h | h
      · refine ⟨i + 1, j + 1, le_rfl, le_rfl, ?_, ?_⟩
        · rw [ltraceB_of_tag0 h]
          have : ((x.take (i + 1)).drop (i + 1)) = [] :=
            List.drop_eq_nil_of_le (by simp [List.length_take])
          simp [removeGaps, this]
        · rw [ltraceB_of_tag0 h]
          have : ((y.take (j + 1)).drop (j + 1)) = [] :=
            List.drop_eq_nil_of_le (by simp [List.length_take])
          simp [removeGaps, this]
      · obtain ⟨i0, j0, hi0, hj0, ha, hb⟩ := ih i j (by omega) (by omega) (by omega)
        refine ⟨i0, j0, by omega, by omega, ?_, ?_⟩
        · rw [ltraceB_of_tag1 h]
          simp only [List.reverse_cons, removeGaps_append, ha,
            removeGaps_cons_ne _ _ hxc, removeGaps_nil]
          rw [hxstep, List.drop_append_of_le_length (by simp [List.length_take]; omega)]
        · rw [ltraceB_of_tag1 h]
          simp only [List.reverse_cons, removeGaps_append, hb,
            removeGaps_cons_ne _ _ hyc, removeGaps_nil]
          rw [hystep, List.drop_append_of_le_length (by simp [List.length_take]; omega)]
      · obtain ⟨i0, j0, hi0, hj0, ha, hb⟩ := ih i (j + 1) (by omega) (by omega) hj
        refine ⟨i0, j0, by omega, by omega, ?_, ?_⟩
        · rw [ltraceB_of_tag2 h]
          simp only [List.reverse_cons, removeGaps_append, ha,
            removeGaps_cons_ne _ _ hxc, removeGaps_nil]
          rw [hxstep, List.drop_append_of_le_length (by simp [List.length_take]; omega)]
        · rw [ltraceB_of_tag2 h]
          simp only [List.reverse_cons, removeGaps_append, hb, removeGaps_cons_gap,
            removeGaps_nil]
          simp
      · obtain ⟨i0, j0, hi0, hj0, ha, hb⟩ := ih (i + 1) j (by omega) hi (by omega)
        refine ⟨i0, j0, by omega, by omega, ?_, ?_⟩
        · rw [ltraceB_of_tag3 h]
          simp only [List.reverse_cons, removeGaps_append, ha, removeGaps_cons_gap,
            removeGaps_nil]
          simp
        · rw [ltraceB_of_tag3 h]
          simp only [List.reverse_cons, removeGaps_append, hb,
            removeGaps_cons_ne _ _ hyc, removeGaps_nil]
          rw [hystep, List.drop_append_of_le_length (by simp [List.length_take]; omega)]

theorem ltraceB_noBothGap (s : Char → Char → Int) (x y : List Char)
    (hx : gapMark ∉ x) (hy : gapMark ∉ y) (dpf : Nat → Nat → Int) :
    ∀ (N i j : Nat), i + j ≤ N →
      noBothGap (ltraceB s x y dpf i j).1 (ltraceB s x y dpf i j).2 := by
  intro N
  induction N with
  | zero =>
    intro i j hN
    have hi : i = 0 := by omega
    subst hi
    rw [ltraceB_zero_left]
    exact noBothGap_nil
  | succ N ih =>
    intro i j hN
    match i, j with
    | 0, j => rw [ltraceB_zero_left]; exact noBothGap_nil
    | i + 1, 0 => rw [ltraceB_zero_right]; exact noBothGap_nil
    | i + 1, j + 1 =>
      have hxc : x.getD i ' ' ≠ gapMark := getD_ne_gapMark hx space_ne_gapMark
      have hyc : y.getD j ' ' ≠ gapMark := getD_ne_gapMark hy space_ne_gapMark
      rcases tagT_cases s x y dpf (i + 1) (j + 1) with h | h | h | h
      · rw [ltraceB_of_tag0 h]; exact noBothGap_nil
      · rw [ltraceB_of_tag1 h]
        exact noBothGap_cons (fun hc => hxc hc.1) (ih i j (by omega))
      · rw [ltraceB_of_tag2 h]
        exact noBothGap_cons (fun hc => hxc hc.1) (ih i (j + 1) (by omega))
      · rw [ltraceB_of_tag3 h]
        exact noBothGap_cons (fun hc => hyc hc.2) (ih (i + 1) j (by omega))

/-! Reversal helpers. -/

theorem zip_reverse_eq {α β : Type} :
    ∀ (l1 : List α) (l2 : List β), l1.length = l2.length →
      l1.reverse.zip l2.reverse = (l1.zip l2).reverse := by
  intro l1
  induction l1 with
  | nil =>
    intro l2 h
    have : l2 = [] := by
      cases l2 with
      | nil => rfl
      | cons b bs => simp at h
    subst this
    simp
  | cons a l1 ih =>
    intro l2 h
    cases l2 with
    | nil => simp at h
    | cons b l2 =>
      have hl : l1.length = l2.length := by simpa using h
      simp only [List.reverse_cons]
      rw [List.zip_append (by simp [hl])]
      rw [ih l2 hl]
      simp

theorem noBothGap_reverse {l1 l2 : List Char} (h : noBothGap l1 l2)
    (hl : l1.length = l2.length) : noBothGap l1.reverse l2.reverse := by
  intro p hp
  rw [zip_reverse_eq l1 l2 hl, List.mem_reverse] at hp
  exact h p hp

theorem alignScore_concat (s : Char → Char → Int) :
    ∀ (l1 l2 : List Char) (a b : Char), l1.length = l2.length →
      alignScore s (l1 ++ [a]) (l2 ++ [b]) = alignScore s l1 l2 + columnScore s a b := by
  intro l1
  induction l1 with
  | nil =>
    intro l2 a b h
    have : l2 = [] := by
      cases l2 with
      | nil => rfl
      | cons c cs => simp at h
    subst this
    simp [alignScore]
  | cons c l1 ih =>
    intro l2 a b h
    cases l2 with
    | nil => simp at h
    | cons d l2 =>
      have hl : l1.length = l2.length := by simpa using h
      simp only [List.cons_append]
      rw [show alignScore s (c :: (l1 ++ [a])) (d :: (l2 ++ [b])) =
        columnScore s c d + alignScore s (l1 ++ [a]) (l2 ++ [b]) from rfl]
      rw [ih l2 a b hl]
      rw [show alignScore s (c :: l1) (d :: l2) =
        columnScore s c d + alignScore s l1 l2 from rfl]
      ring

theorem alignScore_reverse (s : Char → Char → Int) :
    ∀ (l1 l2 : List Char), l1.length = l2.length →
      alignScore s l1.reverse l2.reverse = alignScore s l1 l2 := by
  intro l1
  induction l1 with
  | nil =>
    intro l2 h
    have : l2 = [] := by
      cases l2 with
      | nil => rfl
      | cons b bs => simp at h
    subst this
    simp
  | cons a l1 ih =>
    intro l2 h
    cases l2 with
    | nil => simp at h
    | cons b l2 =>
      have hl : l1.length = l2.length := by simpa using h
      simp only [List.reverse_cons]
      rw [alignScore_concat s _ _ _ _ (by simp [hl])]
      rw [ih l2 hl]
      rw [show alignScore s (a :: l1) (b :: l2) =
        columnScore s a b + alignScore s l1 l2 from rfl]
      ring

/-! Properties of the maximum-cell scan. -/

theorem foldl_inv {α β : Type} (P : β → Prop) (f : β → α → β) :
    ∀ (l : List α) (init : β), P init → (∀ b a, a ∈ l → P b → P (f b a)) →
      P (l.foldl f init) := by
  intro l
  induction l with
  | nil => intro init h _; simpa using h
  | cons a l ih =>
    intro init h hstep
    rw [List.foldl_cons]
    exact ih _ (hstep _ _ (by simp) h)
      (fun b a' ha' hb => hstep b a' (List.mem_cons_of_mem a ha') hb)

theorem bestCell_inv (s : Char → Char → Int) (x y : List Char) :
    (bestCell (dpL s x y) x.length y.length).1 ≤ x.length ∧
      (bestCell (dpL s x y) x.length y.length).2.1 ≤ y.length ∧
      (bestCell (dpL s x y) x.length y.length).2.2 =
        dpL s x y (bestCell (dpL s x y) x.length y.length).1
          (bestCell (dpL s x y) x.length y.length).2.1 := by
  unfold bestCell
  apply foldl_inv
    (fun b : Nat × Nat × Int => b.1 ≤ x.length ∧ b.2.1 ≤ y.length ∧ b.2.2 = dpL s x y b.1 b.2.1)
  · exact ⟨Nat.zero_le _, Nat.zero_le _, by simp [dpL]⟩
  · intro b i' hi' hb
    apply foldl_inv
      (fun b : Nat × Nat × Int => b.1 ≤ x.length ∧ b.2.1 ≤ y.length ∧ b.2.2 = dpL s x y b.1 b.2.1)
    · exact hb
    · intro c j' hj' hc
      by_cases hlt : c.2.2 < dpL s x y (i' + 1) (j' + 1)
      · simp only [if_pos hlt]
        refine ⟨?_, ?_, ?_⟩
        · simpa using List.mem_range.mp hi'
        · simpa using List.mem_range.mp hj'
        · trivial
      · simp only [if_neg hlt]
        exact hc

theorem bestCell_congr (dpf1 dpf2 : Nat → Nat → Int) (n m : Nat)
    (h : ∀ i j, i ≤ n → j ≤ m → dpf1 i j = dpf2 i j) :
    bestCell dpf1 n m = bestCell dpf2 n m := by
  unfold bestCell
  apply List.foldl_ext
  intro a i' hi'
  apply List.foldl_ext
  intro b j' hj'
  rw [h (i' + 1) (j' + 1) (by simpa using List.mem_range.mp hi')
    (by simpa using List.mem_range.mp hj')]

theorem step_score (b : Nat × Nat × Int) (i j : Nat) (v : Int) :
    (if b.2.2 < v then (i, j, v) else b).2.2 = max b.2.2 v := by
  by_cases h : b.2.2 < v
  · simp [if_pos h, max_eq_right (le_of_lt h)]
  · simp [if_neg h, max_eq_left (not_lt.mp h)]

theorem bestCell_mono (dpf1 dpf2 : Nat → Nat → Int) (n m : Nat)
    (h : ∀ i j, dpf1 i j ≤ dpf2 i j) :
    (bestCell dpf1 n m).2.2 ≤ (bestCell dpf2 n m).2.2 := by
  unfold bestCell
  have inner : ∀ (l : List Nat) (i' : Nat) (b1 b2 : Nat × Nat × Int),
      b1.2.2 ≤ b2.2.2 →
      (l.foldl (fun b j' => if b.2.2 < dpf1 (i' + 1) (j' + 1)
          then (i' + 1, j' + 1, dpf1 (i' + 1) (j' + 1)) else b) b1).2.2 ≤
      (l.foldl (fun b j' => if b.2.2 < dpf2 (i' + 1) (j' + 1)
          then (i' + 1, j' + 1, dpf2 (i' + 1) (j' + 1)) else b) b2).2.2 := by
    intro l
    induction l with
    | nil => intro i' b1 b2 hb; simpa using hb
    | cons a l ih =>
      intro i' b1 b2 hb
      simp only [List.foldl_cons]
      apply ih
      rw [step_score, step_score]
      exact max_le_max hb (h _ _)
  have outer : ∀ (l : List Nat) (b1 b2 : Nat × Nat × Int),
      b1.2.2 ≤ b2.2.2 →
      (l.foldl (fun a i' => (List.range m).foldl (fun b j' =>
          if b.2.2 < dpf1 (i' + 1) (j' + 1)
          then (i' + 1, j' + 1, dpf1 (i' + 1) (j' + 1)) else b) a) b1).2.2 ≤
      (l.foldl (fun a i' => (List.range m).foldl (fun b j' =>
          if b.2.2 < dpf2 (i' + 1) (j' + 1)
          then (i' + 1, j' + 1, dpf2 (i' + 1) (j' + 1)) else b) a) b2).2.2 := by
    intro l
    induction l with
    | nil => intro b1 b2 hb; simpa using hb
    | cons a l ih =>
      intro b1 b2 hb
      simp only [List.foldl_cons]
      exact ih _ _ (inner (List.range m) a b1 b2 hb)
  exact outer (List.range n) _ _ le_rfl

/-! Monotonicity of the DP recurrences in the scoring function. -/

theorem dpG_mono (s1 s2 : Char → Char → Int) (h : ∀ a b, s1 a b ≤ s2 a b)
    (x y : List Char) :
    ∀ (N i j : Nat), i + j ≤ N → dpG s1 x y i j ≤ dpG s2 x y i j := by
  intro N
  induction N with
  | zero =>
    intro i j hN
    have hi : i = 0 := by omega
    have hj : j = 0 := by omega
    subst hi; subst hj
    simp [dpG]
  | succ N ih =>
    intro i j hN
    match i, j with
    | 0, 0 => simp [dpG]
    | i + 1, 0 =>
      have h1 : dpG s1 x y (i + 1) 0 = dpG s1 x y i 0 + s1 (x.getD i ' ') gapSym := by
        simp [dpG]
      have h2 : dpG s2 x y (i + 1) 0 = dpG s2 x y i 0 + s2 (x.getD i ' ') gapSym := by
        simp [dpG]
      rw [h1, h2]
      exact add_le_add (ih i 0 (by omega)) (h _ _)
    | 0, j + 1 =>
      have h1 : dpG s1 x y 0 (j + 1) = dpG s1 x y 0 j + s1 gapSym (y.getD j ' ') := by
        simp [dpG]
      have h2 : dpG s2 x y 0 (j + 1) = dpG s2 x y 0 j + s2 gapSym (y.getD j ' ') := by
        simp [dpG]
      rw [h1, h2]
      exact add_le_add (ih 0 j (by omega)) (h _ _)
    | i + 1, j + 1 =>
      have h1 : dpG s1 x y (i + 1) (j + 1) =
          max (max (dpG s1 x y i j + s1 (x.getD i ' ') (y.getD j ' '))
                   (dpG s1 x y i (j + 1) + s1 (x.getD i ' ') gapSym))
              (dpG s1 x y (i + 1) j + s1 gapSym (y.getD j ' ')) := by
        simp [dpG]
      have h2 : dpG s2 x y (i + 1) (j + 1) =
          max (max (dpG s2 x y i j + s2 (x.getD i ' ') (y.getD j ' '))
                   (dpG s2 x y i (j + 1) + s2 (x.getD i ' ') gapSym))
              (dpG s2 x y (i + 1) j + s2 gapSym (y.getD j ' ')) := by
        simp [dpG]
      rw [h1, h2]
      exact max_le_max
        (max_le_max (add_le_add (ih i j (by omega)) (h _ _))
          (add_le_add (ih i (j + 1) (by omega)) (h _ _)))
        (add_le_add (ih (i + 1) j (by omega)) (h _ _))

theorem dpL_mono (s1 s2 : Char → Char → Int) (h : ∀ a b, s1 a b ≤ s2 a b)
    (x y : List Char) :
    ∀ (N i j : Nat), i + j ≤ N → dpL s1 x y i j ≤ dpL s2 x y i j := by
  intro N
  induction N with
  | zero =>
    intro i j hN
    have hi : i = 0 := by omega
    subst hi
    simp [dpL]
  | succ N ih =>
    intro i j hN
    match i, j with
    | 0, j => simp [dpL]
    | i + 1, 0 => simp [dpL]
    | i + 1, j + 1 =>
      have h1 : dpL s1 x y (i + 1) (j + 1) =
          max 0 (max (dpL s1 x y i j + s1 (x.getD i ' ') (y.getD j ' '))
                     (max (dpL s1 x y i (j + 1) + s1 (x.getD i ' ') gapSym)
                          (dpL s1 x y (i + 1) j + s1 gapSym (y.getD j ' ')))) := by
        simp [dpL]
      have h2 : dpL s2 x y (i + 1) (j + 1) =
          max 0 (max (dpL s2 x y i j + s2 (x.getD i ' ') (y.getD j ' '))
                     (max (dpL s2 x y i (j + 1) + s2 (x.getD i ' ') gapSym)
                          (dpL s2 x y (i + 1) j + s2 gapSym (y.getD j ' ')))) := by
        simp [dpL]
      rw [h1, h2]
      exact max_le_max le_rfl
        (max_le_max (add_le_add (ih i j (by omega)) (h _ _))
          (max_le_max (add_le_add (ih i (j + 1) (by omega)) (h _ _))
            (add_le_add (ih (i + 1) j (by omega)) (h _ _))))

/-- Normal form of `local_alignment`: the executable definition equals the
tag-driven traceback over the recurrence `dpL` started at the maximum cell,
and the returned score is that cell's value. -/
theorem local_alignment_eq (x y : List Char) (s : Char → Char → Int) :
    local_alignment x y s =
      ((ltraceB s x y (dpL s x y) (bestCell (dpL s x y) x.length y.length).1
          (bestCell (dpL s x y) x.length y.length).2.1).1.reverse,
       (ltraceB s x y (dpL s x y) (bestCell (dpL s x y) x.length y.length).1
          (bestCell (dpL s x y) x.length y.length).2.1).2.reverse,
       (bestCell (dpL s x y) x.length y.length).2.2) := by
  have hbc : bestCell (dpLook (lTable s x y)) x.length y.length =
      bestCell (dpL s x y) x.length y.length :=
    bestCell_congr _ _ _ _ (fun i j hi hj => dpLook_lTable s x y hi hj)
  obtain ⟨hbi, hbj, -⟩ := bestCell_inv s x y
  unfold local_alignment
  dsimp only
  rw [hbc]
  rw [lTraceF_eq_ltraceB s x y _ _ _ _ le_rfl]
  rw [ltraceB_congr s x y _ _
    ((bestCell (dpL s x y) x.length y.length).1 +
      (bestCell (dpL s x y) x.length y.length).2.1)
    _ _ le_rfl
    (fun i' j' hi' hj' => dpLook_lTable s x y (le_trans hi' hbi) (le_trans hj' hbj))]
  simp

/-! Literal DP tables for the doctest inputs, established row by row. -/

theorem gRows_nil (s : Char → Char → Int) (y : List Char) (prev : List Int) :
    gRows s y prev [] = [] := by
  simp [gRows]

theorem lRows_nil (s : Char → Char → Int) (y : List Char) (prev : List Int) :
    lRows s y prev [] = [] := by
  simp [lRows]

theorem gRows_cons_eq (s : Char → Char → Int) (y : List Char) (prev : List Int)
    (xi : Char) (xs : List Char) (r : List Int)
    (hr : (prev.headD 0 + s xi gapSym) ::
      gRowAux s xi prev (prev.headD 0 + s xi gapSym) y = r) :
    gRows s y prev (xi :: xs) = r :: gRows s y r xs := by
  simp only [gRows]
  rw [hr]

theorem lRows_cons_eq (s : Char → Char → Int) (y : List Char) (prev : List Int)
    (xi : Char) (xs : List Char) (r : List Int)
    (hr : (0 : Int) :: lRowAux s xi prev 0 y = r) :
    lRows s y prev (xi :: xs) = r :: lRows s y r xs := by
  simp only [lRows]
  rw [hr]

theorem gTable_doctest :
    gTable matchScore "the brown cat".toList "these brownies".toList =
      [[0, (-1 : Int), (-2 : Int), (-3 : Int), (-4 : Int), (-5 : Int), (-6 : Int), (-7 : Int), (-8 : Int), (-9 : Int), (-10 : Int), (-11 : Int), (-12 : Int), (-13 : Int), (-14 : Int)],
      [(-1 : Int), 1, 0, (-1 : Int), (-2 : Int), (-3 : Int), (-4 : Int), (-5 : Int), (-6 : Int), (-7 : Int), (-8 : Int), (-9 : Int), (-10 : Int), (-11 : Int), (-12 : Int)],
      [(-2 : Int), 0, 2, 1, 0, (-1 : Int), (-2 : Int), (-3 : Int), (-4 : Int), (-5 : Int), (-6 : Int), (-7 : Int), (-8 : Int), (-9 : Int), (-10 : Int)],
      [(-3 : Int), (-1 : Int), 1, 3, 2, 1, 0, (-1 : Int), (-2 : Int), (-3 : Int), (-4 : Int), (-5 : Int), (-6 : Int), (-7 : Int), (-8 : Int)],
      [(-4 : Int), (-2 : Int), 0, 2, 2, 1, 2, 1, 0, (-1 : Int), (-2 : Int), (-3 : Int), (-4 : Int), (-5 : Int), (-6 : Int)],
      [(-5 : Int), (-3 : Int), (-1 : Int), 1, 1, 1, 1, 3, 2, 1, 0, (-1 : Int), (-2 : Int), (-3 : Int), (-4 : Int)],
      [(-6 : Int), (-4 : Int), (-2 : Int), 0, 0, 0, 0, 2, 4, 3, 2, 1, 0, (-1 : Int), (-2 : Int)],
      [(-7 : Int), (-5 : Int), (-3 : Int), (-1 : Int), (-1 : Int), (-1 : Int), (-1 : Int), 1, 3, 5, 4, 3, 2, 1, 0],
      [(-8 : Int), (-6 : Int), (-4 : Int), (-2 : Int), (-2 : Int), (-2 : Int), (-2 : Int), 0, 2, 4, 6, 5, 4, 3, 2],
      [(-9 : Int), (-7 : Int), (-5 : Int), (-3 : Int), (-3 : Int), (-3 : Int), (-3 : Int), (-1 : Int), 1, 3, 5, 7, 6, 5, 4],
      [(-10 : Int), (-8 : Int), (-6 : Int), (-4 : Int), (-4 : Int), (-4 : Int), (-2 : Int), (-2 : Int), 0, 2, 4, 6, 6, 5, 4],
      [(-11 : Int), (-9 : Int), (-7 : Int), (-5 : Int), (-5 : Int), (-5 : Int), (-3 : Int), (-3 : Int), (-1 : Int), 1, 3, 5, 5, 5, 4],
      [(-12 : Int), (-10 : Int), (-8 : Int), (-6 : Int), (-6 : Int), (-6 : Int), (-4 : Int), (-4 : Int), (-2 : Int), 0, 2, 4, 4, 4, 4],
      [(-13 : Int), (-11 : Int), (-9 : Int), (-7 : Int), (-7 : Int), (-7 : Int), (-5 : Int), (-5 : Int), (-3 : Int), (-1 : Int), 1, 3, 3, 3, 3]] := by
  have hx : "the brown cat".toList = ['t', 'h', 'e', ' ', 'b', 'r', 'o', 'w', 'n', ' ', 'c', 'a', 't'] := by decide
  have hy : "these brownies".toList = ['t', 'h', 'e', 's', 'e', ' ', 'b', 'r', 'o', 'w', 'n', 'i', 'e', 's'] := by decide
  rw [hx, hy]
  unfold gTable
  rw [show gRow0 matchScore ['t', 'h', 'e', 's', 'e', ' ', 'b', 'r', 'o', 'w', 'n', 'i', 'e', 's'] 0 = [0, (-1 : Int), (-2 : Int), (-3 : Int), (-4 : Int), (-5 : Int), (-6 : Int), (-7 : Int), (-8 : Int), (-9 : Int), (-10 : Int), (-11 : Int), (-12 : Int), (-13 : Int), (-14 : Int)] from by decide]
  rw [gRows_cons_eq matchScore ['t', 'h', 'e', 's', 'e', ' ', 'b', 'r', 'o', 'w', 'n', 'i', 'e', 's'] [0, (-1 : Int), (-2 : Int), (-3 : Int), (-4 : Int), (-5 : Int), (-6 : Int), (-7 : Int), (-8 : Int), (-9 : Int), (-10 : Int), (-11 : Int), (-12 : Int), (-13 : Int), (-14 : Int)] 't' ['h', 'e', ' ', 'b', 'r', 'o', 'w', 'n', ' ', 'c', 'a', 't'] [(-1 : Int), 1, 0, (-1 : Int), (-2 : Int), (-3 : Int), (-4 : Int), (-5 : Int), (-6 : Int), (-7 : Int), (-8 : Int), (-9 : Int), (-10 : Int), (-11 : Int), (-12 : Int)] (by decide)]
  rw [gRows_cons_eq matchScore ['t', 'h', 'e', 's', 'e', ' ', 'b', 'r', 'o', 'w', 'n', 'i', 'e', 's'] [(-1 : Int), 1, 0, (-1 : Int), (-2 : Int), (-3 : Int), (-4 : Int), (-5 : Int), (-6 : Int), (-7 : Int), (-8 : Int), (-9 : Int), (-10 : Int), (-11 : Int), (-12 : Int)] 'h' ['e', ' ', 'b', 'r', 'o', 'w', 'n', ' ', 'c', 'a', 't'] [(-2 : Int), 0, 2, 1, 0, (-1 : Int), (-2 : Int), (-3 : Int), (-4 : Int), (-5 : Int), (-6 : Int), (-7 : Int), (-8 : Int), (-9 : Int), (-10 : Int)] (by decide)]
  rw [gRows_cons_eq matchScore ['t', 'h', 'e', 's', 'e', ' ', 'b', 'r', 'o', 'w', 'n', 'i', 'e', 's'] [(-2 : Int), 0, 2, 1, 0, (-1 : Int), (-2 : Int), (-3 : Int), (-4 : Int), (-5 : Int), (-6 : Int), (-7 : Int), (-8 : Int), (-9 : Int), (-10 : Int)] 'e' [' ', 'b', 'r', 'o', 'w', 'n', ' ', 'c', 'a', 't'] [(-3 : Int), (-1 : Int), 1, 3, 2, 1, 0, (-1 : Int), (-2 : Int), (-3 : Int), (-4 : Int), (-5 : Int), (-6 : Int), (-7 : Int), (-8 : Int)] (by decide)]
  rw [gRows_cons_eq matchScore ['t', 'h', 'e', 's', 'e', ' ', 'b', 'r', 'o', 'w', 'n', 'i', 'e', 's'] [(-3 : Int), (-1 : Int), 1, 3, 2, 1, 0, (-1 : Int), (-2 : Int), (-3 : Int), (-4 : Int), (-5 : Int), (-6 : Int), (-7 : Int), (-8 : Int)] ' ' ['b', 'r', 'o', 'w', 'n', ' ', 'c', 'a', 't'] [(-4 : Int), (-2 : Int), 0, 2, 2, 1, 2, 1, 0, (-1 : Int), (-2 : Int), (-3 : Int), (-4 : Int), (-5 : Int), (-6 : Int)] (by decide)]
  rw [gRows_cons_eq matchScore ['t', 'h', 'e', 's', 'e', ' ', 'b', 'r', 'o', 'w', 'n', 'i', 'e', 's'] [(-4 : Int), (-2 : Int), 0, 2, 2, 1, 2, 1, 0, (-1 : Int), (-2 : Int), (-3 : Int), (-4 : Int), (-5 : Int), (-6 : Int)] 'b' ['r', 'o', 'w', 'n', ' ', 'c', 'a', 't'] [(-5 : Int), (-3 : Int), (-1 : Int), 1, 1, 1, 1, 3, 2, 1, 0, (-1 : Int), (-2 : Int), (-3 : Int), (-4 : Int)] (by decide)]
  rw [gRows_cons_eq matchScore ['t', 'h', 'e', 's', 'e', ' ', 'b', 'r', 'o', 'w', 'n', 'i', 'e', 's'] [(-5 : Int), (-3 : Int), (-1 : Int), 1, 1, 1, 1, 3, 2, 1, 0, (-1 : Int), (-2 : Int), (-3 : Int), (-4 : Int)] 'r' ['o', 'w', 'n', ' ', 'c', 'a', 't'] [(-6 : Int), (-4 : Int), (-2 : Int), 0, 0, 0, 0, 2, 4, 3, 2, 1, 0, (-1 : Int), (-2 : Int)] (by decide)]
  rw [gRows_cons_eq matchScore ['t', 'h', 'e', 's', 'e', ' ', 'b', 'r', 'o', 'w', 'n', 'i', 'e', 's'] [(-6 : Int), (-4 : Int), (-2 : Int), 0, 0, 0, 0, 2, 4, 3, 2, 1, 0, (-1 : Int), (-2 : Int)] 'o' ['w', 'n', ' ', 'c', 'a', 't'] [(-7 : Int), (-5 : Int), (-3 : Int), (-1 : Int), (-1 : Int), (-1 : Int), (-1 : Int), 1, 3, 5, 4, 3, 2, 1, 0] (by decide)]
  rw [gRows_cons_eq matchScore ['t', 'h', 'e', 's', 'e', ' ', 'b', 'r', 'o', 'w', 'n', 'i', 'e', 's'] [(-7 : Int), (-5 : Int), (-3 : Int), (-1 : Int), (-1 : Int), (-1 : Int), (-1 : Int), 1, 3, 5, 4, 3, 2, 1, 0] 'w' ['n', ' ', 'c', 'a', 't'] [(-8 : Int), (-6 : Int), (-4 : Int), (-2 : Int), (-2 : Int), (-2 : Int), (-2 : Int), 0, 2, 4, 6, 5, 4, 3, 2] (by decide)]
  rw [gRows_cons_eq matchScore ['t', 'h', 'e', 's', 'e', ' ', 'b', 'r', 'o', 'w', 'n', 'i', 'e', 's'] [(-8 : Int), (-6 : Int), (-4 : Int), (-2 : Int), (-2 : Int), (-2 : Int), (-2 : Int), 0, 2, 4, 6, 5, 4, 3, 2] 'n' [' ', 'c', 'a', 't'] [(-9 : Int), (-7 : Int), (-5 : Int), (-3 : Int), (-3 : Int), (-3 : Int), (-3 : Int), (-1 : Int), 1, 3, 5, 7, 6, 5, 4] (by decide)]
  rw [gRows_cons_eq matchScore ['t', 'h', 'e', 's', 'e', ' ', 'b', 'r', 'o', 'w', 'n', 'i', 'e', 's'] [(-9 : Int), (-7 : Int), (-5 : Int), (-3 : Int), (-3 : Int), (-3 : Int), (-3 : Int), (-1 : Int), 1, 3, 5, 7, 6, 5, 4] ' ' ['c', 'a', 't'] [(-10 : Int), (-8 : Int), (-6 : Int), (-4 : Int), (-4 : Int), (-4 : Int), (-2 : Int), (-2 : Int), 0, 2, 4, 6, 6, 5, 4] (by decide)]
  rw [gRows_cons_eq matchScore ['t', 'h', 'e', 's', 'e', ' ', 'b', 'r', 'o', 'w', 'n', 'i', 'e', 's'] [(-10 : Int), (-8 : Int), (-6 : Int), (-4 : Int), (-4 : Int), (-4 : Int), (-2 : Int), (-2 : Int), 0, 2, 4, 6, 6, 5, 4] 'c' ['a', 't'] [(-11 : Int), (-9 : Int), (-7 : Int), (-5 : Int), (-5 : Int), (-5 : Int), (-3 : Int), (-3 : Int), (-1 : Int), 1, 3, 5, 5, 5, 4] (by decide)]
  rw [gRows_cons_eq matchScore ['t', 'h', 'e', 's', 'e', ' ', 'b', 'r', 'o', 'w', 'n', 'i', 'e', 's'] [(-11 : Int), (-9 : Int), (-7 : Int), (-5 : Int), (-5 : Int), (-5 : Int), (-3 : Int), (-3 : Int), (-1 : Int), 1, 3, 5, 5, 5, 4] 'a' ['t'] [(-12 : Int), (-10 : Int), (-8 : Int), (-6 : Int), (-6 : Int), (-6 : Int), (-4 : Int), (-4 : Int), (-2 : Int), 0, 2, 4, 4, 4, 4] (by decide)]
  rw [gRows_cons_eq matchScore ['t', 'h', 'e', 's', 'e', ' ', 'b', 'r', 'o', 'w', 'n', 'i', 'e', 's'] [(-12 : Int), (-10 : Int), (-8 : Int), (-6 : Int), (-6 : Int), (-6 : Int), (-4 : Int), (-4 : Int), (-2 : Int), 0, 2, 4, 4, 4, 4] 't' [] [(-13 : Int), (-11 : Int), (-9 : Int), (-7 : Int), (-7 : Int), (-7 : Int), (-5 : Int), (-5 : Int), (-3 : Int), (-1 : Int), 1, 3, 3, 3, 3] (by decide)]
  rw [gRows_nil]

theorem lTable_doctest :
    lTable matchScore "the brown cat".toList "these brownies".toList =
      [[0, 0, 0, 0, 0, 0, 0, 0, 0, 0, 0, 0, 0, 0, 0],
      [0, 1, 0, 0, 0, 0, 0, 0, 0, 0, 0, 0, 0, 0, 0],
      [0, 0, 2, 1, 0, 0, 0, 0, 0, 0, 0, 0, 0, 0, 0],
      [0, 0, 1, 3, 2, 1, 0, 0, 0, 0, 0, 0, 0, 1, 0],
      [0, 0, 0, 2, 2, 1, 2, 1, 0, 0, 0, 0, 0, 0, 0],
      [0, 0, 0, 1, 1, 1, 1, 3, 2, 1, 0, 0, 0, 0, 0],
      [0, 0, 0, 0, 0, 0, 0, 2, 4, 3, 2, 1, 0, 0, 0],
      [0, 0, 0, 0, 0, 0, 0, 1, 3, 5, 4, 3, 2, 1, 0],
      [0, 0, 0, 0, 0, 0, 0, 0, 2, 4, 6, 5, 4, 3, 2],
      [0, 0, 0, 0, 0, 0, 0, 0, 1, 3, 5, 7, 6, 5, 4],
      [0, 0, 0, 0, 0, 0, 1, 0, 0, 2, 4, 6, 6, 5, 4],
      [0, 0, 0, 0, 0, 0, 0, 0, 0, 1, 3, 5, 5, 5, 4],
      [0, 0, 0, 0, 0, 0, 0, 0, 0, 0, 2, 4, 4, 4, 4],
      [0, 1, 0, 0, 0, 0, 0, 0, 0, 0, 1, 3, 3, 3, 3]] := by
  have hx : "the brown cat".toList = ['t', 'h', 'e', ' ', 'b', 'r', 'o', 'w', 'n', ' ', 'c', 'a', 't'] := by decide
  have hy : "these brownies".toList = ['t', 'h', 'e', 's', 'e', ' ', 'b', 'r', 'o', 'w', 'n', 'i', 'e', 's'] := by decide
  rw [hx, hy]
  unfold lTable
  rw [show List.replicate (['t', 'h', 'e', 's', 'e', ' ', 'b', 'r', 'o', 'w', 'n', 'i', 'e', 's'].length + 1) (0 : Int) = [0, 0, 0, 0, 0, 0, 0, 0, 0, 0, 0, 0, 0, 0, 0] from by decide]
  rw [lRows_cons_eq matchScore ['t', 'h', 'e', 's', 'e', ' ', 'b', 'r', 'o', 'w', 'n', 'i', 'e', 's'] [0, 0, 0, 0, 0, 0, 0, 0, 0, 0, 0, 0, 0, 0, 0] 't' ['h', 'e', ' ', 'b', 'r', 'o', 'w', 'n', ' ', 'c', 'a', 't'] [0, 1, 0, 0, 0, 0, 0, 0, 0, 0, 0, 0, 0, 0, 0] (by decide)]
  rw [lRows_cons_eq matchScore ['t', 'h', 'e', 's', 'e', ' ', 'b', 'r', 'o', 'w', 'n', 'i', 'e', 's'] [0, 1, 0, 0, 0, 0, 0, 0, 0, 0, 0, 0, 0, 0, 0] 'h' ['e', ' ', 'b', 'r', 'o', 'w', 'n', ' ', 'c', 'a', 't'] [0, 0, 2, 1, 0, 0, 0, 0, 0, 0, 0, 0, 0, 0, 0] (by decide)]
  rw [lRows_cons_eq matchScore ['t', 'h', 'e', 's', 'e', ' ', 'b', 'r', 'o', 'w', 'n', 'i', 'e', 's'] [0, 0, 2, 1, 0, 0, 0, 0, 0, 0, 0, 0, 0, 0, 0] 'e' [' ', 'b', 'r', 'o', 'w', 'n', ' ', 'c', 'a', 't'] [0, 0, 1, 3, 2, 1, 0, 0, 0, 0, 0, 0, 0, 1, 0] (by decide)]
  rw [lRows_cons_eq matchScore ['t', 'h', 'e', 's', 'e', ' ', 'b', 'r', 'o', 'w', 'n', 'i', 'e', 's'] [0, 0, 1, 3, 2, 1, 0, 0, 0, 0, 0, 0, 0, 1, 0] ' ' ['b', 'r', 'o', 'w', 'n', ' ', 'c', 'a', 't'] [0, 0, 0, 2, 2, 1, 2, 1, 0, 0, 0, 0, 0, 0, 0] (by decide)]
  rw [lRows_cons_eq matchScore ['t', 'h', 'e', 's', 'e', ' ', 'b', 'r', 'o', 'w', 'n', 'i', 'e', 's'] [0, 0, 0, 2, 2, 1, 2, 1, 0, 0, 0, 0, 0, 0, 0] 'b' ['r', 'o', 'w', 'n', ' ', 'c', 'a', 't'] [0, 0, 0, 1, 1, 1, 1, 3, 2, 1, 0, 0, 0, 0, 0] (by decide)]
  rw [lRows_cons_eq matchScore ['t', 'h', 'e', 's', 'e', ' ', 'b', 'r', 'o', 'w', 'n', 'i', 'e', 's'] [0, 0, 0, 1, 1, 1, 1, 3, 2, 1, 0, 0, 0, 0, 0] 'r' ['o', 'w', 'n', ' ', 'c', 'a', 't'] [0, 0, 0, 0, 0, 0, 0, 2, 4, 3, 2, 1, 0, 0, 0] (by decide)]
  rw [lRows_cons_eq matchScore ['t', 'h', 'e', 's', 'e', ' ', 'b', 'r', 'o', 'w', 'n', 'i', 'e', 's'] [0, 0, 0, 0, 0, 0, 0, 2, 4, 3, 2, 1, 0, 0, 0] 'o' ['w', 'n', ' ', 'c', 'a', 't'] [0, 0, 0, 0, 0, 0, 0, 1, 3, 5, 4, 3, 2, 1, 0] (by decide)]
  rw [lRows_cons_eq matchScore ['t', 'h', 'e', 's', 'e', ' ', 'b', 'r', 'o', 'w', 'n', 'i', 'e', 's'] [0, 0, 0, 0, 0, 0, 0, 1, 3, 5, 4, 3, 2, 1, 0] 'w' ['n', ' ', 'c', 'a', 't'] [0, 0, 0, 0, 0, 0, 0, 0, 2, 4, 6, 5, 4, 3, 2] (by decide)]
  rw [lRows_cons_eq matchScore ['t', 'h', 'e', 's', 'e', ' ', 'b', 'r', 'o', 'w', 'n', 'i', 'e', 's'] [0, 0, 0, 0, 0, 0, 0, 0, 2, 4, 6, 5, 4, 3, 2] 'n' [' ', 'c', 'a', 't'] [0, 0, 0, 0, 0, 0, 0, 0, 1, 3, 5, 7, 6, 5, 4] (by decide)]
  rw [lRows_cons_eq matchScore ['t', 'h', 'e', 's', 'e', ' ', 'b', 'r', 'o', 'w', 'n', 'i', 'e', 's'] [0, 0, 0, 0, 0, 0, 0, 0, 1, 3, 5, 7, 6, 5, 4] ' ' ['c', 'a', 't'] [0, 0, 0, 0, 0, 0, 1, 0, 0, 2, 4, 6, 6, 5, 4] (by decide)]
  rw [lRows_cons_eq matchScore ['t', 'h', 'e', 's', 'e', ' ', 'b', 'r', 'o', 'w', 'n', 'i', 'e', 's'] [0, 0, 0, 0, 0, 0, 1, 0, 0, 2, 4, 6, 6, 5, 4] 'c' ['a', 't'] [0, 0, 0, 0, 0, 0, 0, 0, 0, 1, 3, 5, 5, 5, 4] (by decide)]
  rw [lRows_cons_eq matchScore ['t', 'h', 'e', 's', 'e', ' ', 'b', 'r', 'o', 'w', 'n', 'i', 'e', 's'] [0, 0, 0, 0, 0, 0, 0, 0, 0, 1, 3, 5, 5, 5, 4] 'a' ['t'] [0, 0, 0, 0, 0, 0, 0, 0, 0, 0, 2, 4, 4, 4, 4] (by decide)]
  rw [lRows_cons_eq matchScore ['t', 'h', 'e', 's', 'e', ' ', 'b', 'r', 'o', 'w', 'n', 'i', 'e', 's'] [0, 0, 0, 0, 0, 0, 0, 0, 0, 0, 2, 4, 4, 4, 4] 't' [] [0, 1, 0, 0, 0, 0, 0, 0, 0, 0, 1, 3, 3, 3, 3] (by decide)]
  rw [lRows_nil]


theorem bestCell_step (dpf : Nat → Nat → Int) (m : Nat) (acc c : Nat × Nat × Int)
    (i0 : Nat) (l : List Nat)
    (h : List.foldl (fun b j' => if b.2.2 < dpf (i0 + 1) (j' + 1)
        then (i0 + 1, j' + 1, dpf (i0 + 1) (j' + 1)) else b) acc (List.range m) = c) :
    List.foldl (fun a i' => List.foldl (fun b j' => if b.2.2 < dpf (i' + 1) (j' + 1)
        then (i' + 1, j' + 1, dpf (i' + 1) (j' + 1)) else b) a (List.range m))
      acc (i0 :: l) =
    List.foldl (fun a i' => List.foldl (fun b j' => if b.2.2 < dpf (i' + 1) (j' + 1)
        then (i' + 1, j' + 1, dpf (i' + 1) (j' + 1)) else b) a (List.range m)) c l := by
  rw [List.foldl_cons]
  rw [h]

set_option maxRecDepth 8000 in
theorem bestCell_doctest :
    bestCell (dpLook (lTable matchScore "the brown cat".toList "these brownies".toList))
      "the brown cat".toList.length "these brownies".toList.length = (9, 11, 7) := by
  rw [lTable_doctest]
  unfold bestCell
  rw [show "the brown cat".toList.length = 13 from by decide]
  rw [show "these brownies".toList.length = 14 from by decide]
  rw [show List.range 13 = [0, 1, 2, 3, 4, 5, 6, 7, 8, 9, 10, 11, 12] from by decide]
  rw [bestCell_step _ 14 (0, 0, 0) (1, 1, 1) 0 _ (by decide)]
  rw [bestCell_step _ 14 (1, 1, 1) (2, 2, 2) 1 _ (by decide)]
  rw [bestCell_step _ 14 (2, 2, 2) (3, 3, 3) 2 _ (by decide)]
  rw [bestCell_step _ 14 (3, 3, 3) (3, 3, 3) 3 _ (by decide)]
  rw [bestCell_step _ 14 (3, 3, 3) (3, 3, 3) 4 _ (by decide)]
  rw [bestCell_step _ 14 (3, 3, 3) (6, 8, 4) 5 _ (by decide)]
  rw [bestCell_step _ 14 (6, 8, 4) (7, 9, 5) 6 _ (by decide)]
  rw [bestCell_step _ 14 (7, 9, 5) (8, 10, 6) 7 _ (by decide)]
  rw [bestCell_step _ 14 (8, 10, 6) (9, 11, 7) 8 _ (by decide)]
  rw [bestCell_step _ 14 (9, 11, 7) (9, 11, 7) 9 _ (by decide)]
  rw [bestCell_step _ 14 (9, 11, 7) (9, 11, 7) 10 _ (by decide)]
  rw [bestCell_step _ 14 (9, 11, 7) (9, 11, 7) 11 _ (by decide)]
  rw [bestCell_step _ 14 (9, 11, 7) (9, 11, 7) 12 _ (by decide)]
  rw [List.foldl_nil]


/-! The spec-worded reference traceback agrees with the code's traceback. -/

theorem gTracebackRef_eq_gTraceback (s : Char → Char → Int) (x y : List Char) :
    ∀ (N i j : Nat) (acc : List Char × List Char), i + j ≤ N →
      gTracebackRef s x y (dpG s x y) i j acc = gTraceback s x y (dpG s x y) i j acc := by
  intro N
  induction N with
  | zero =>
    intro i j acc hN
    have hi : i = 0 := by omega
    have hj : j = 0 := by omega
    subst hi; subst hj
    conv_lhs => rw [gTracebackRef]
    conv_rhs => rw [gTraceback]
    simp
  | succ N ih =>
    intro i j acc hN
    by_cases h1 : i = 0 ∧ j = 0
    · conv_lhs => rw [gTracebackRef]
      conv_rhs => rw [gTraceback]
      rw [dif_pos h1, dif_pos h1]
    · conv_lhs => rw [gTracebackRef]
      conv_rhs => rw [gTraceback]
      by_cases h2 : 0 < i ∧ dpG s x y i j = dpG s x y (i - 1) j + s (x.getD (i - 1) ' ') gapSym
      · obtain ⟨hi2, -⟩ := id h2
        rw [dif_neg h1, dif_pos h2, dif_neg h1, dif_pos h2]
        exact ih _ _ _ (by omega)
      · by_cases h3 : 0 < j ∧ dpG s x y i j = dpG s x y i (j - 1) + s gapSym (y.getD (j - 1) ' ')
        · obtain ⟨hj3, -⟩ := id h3
          rw [dif_neg h1, dif_neg h2, dif_pos h3, dif_neg h1, dif_neg h2, dif_pos h3]
          exact ih _ _ _ (by omega)
        · obtain ⟨hi4, hj4, he4⟩ := gDiag_of_not_up_left s x y i j h1 h2 h3
          rw [dif_neg h1, dif_neg h2, dif_neg h3, dif_pos ⟨hi4, hj4, he4⟩,
            dif_neg h1, dif_neg h2, dif_neg h3]
          exact ih _ _ _ (by omega)

/-! Edge cases: traceback along the sentinel row and column, and the
cumulative gap scores of the sentinels. -/

theorem gTraceback_row0 (s : Char → Char → Int) (x y : List Char) :
    ∀ (j : Nat) (acc : List Char × List Char), j ≤ y.length →
      gTraceback s x y (dpG s x y) 0 j acc =
        (List.replicate j gapMark ++ acc.1, y.take j ++ acc.2) := by
  intro j
  induction j with
  | zero =>
    intro acc _
    rw [gTraceback]
    simp
  | succ j ih =>
    intro acc hj
    have h1 : ¬((0 : Nat) = 0 ∧ j + 1 = 0) := by omega
    have h2 : ¬(0 < 0 ∧ dpG s x y 0 (j + 1) =
        dpG s x y (0 - 1) (j + 1) + s (x.getD (0 - 1) ' ') gapSym) := by
      intro hc
      exact absurd hc.1 (lt_irrefl 0)
    have h3 : 0 < j + 1 ∧ dpG s x y 0 (j + 1) =
        dpG s x y 0 (j + 1 - 1) + s gapSym (y.getD (j + 1 - 1) ' ') :=
      ⟨Nat.succ_pos j, by simp [dpG]⟩
    rw [gTraceback, dif_neg h1, dif_neg h2, dif_pos h3]
    simp only [Nat.add_sub_cancel]
    rw [ih (gapMark :: acc.1, y.getD j ' ' :: acc.2) (by omega)]
    have e1 : List.replicate j gapMark ++ (gapMark :: acc.1) =
        List.replicate (j + 1) gapMark ++ acc.1 := by
      rw [List.replicate_succ']
      simp
    have e2 : y.take j ++ (y.getD j ' ' :: acc.2) = y.take (j + 1) ++ acc.2 := by
      rw [take_getD_succ (show j < y.length by omega) ' ']
      simp
    rw [show (gapMark :: acc.1, y.getD j ' ' :: acc.2).1 = gapMark :: acc.1 from rfl,
      show (gapMark :: acc.1, y.getD j ' ' :: acc.2).2 = y.getD j ' ' :: acc.2 from rfl]
    rw [e1, e2]

theorem gTraceback_col0 (s : Char → Char → Int) (x y : List Char) :
    ∀ (i : Nat) (acc : List Char × List Char), i ≤ x.length →
      gTraceback s x y (dpG s x y) i 0 acc =
        (x.take i ++ acc.1, List.replicate i gapMark ++ acc.2) := by
  intro i
  induction i with
  | zero =>
    intro acc _
    rw [gTraceback]
    simp
  | succ i ih =>
    intro acc hi
    have h1 : ¬(i + 1 = 0 ∧ (0 : Nat) = 0) := by omega
    have h2 : 0 < i + 1 ∧ dpG s x y (i + 1) 0 =
        dpG s x y (i + 1 - 1) 0 + s (x.getD (i + 1 - 1) ' ') gapSym :=
      ⟨Nat.succ_pos i, by simp [dpG]⟩
    rw [gTraceback, dif_neg h1, dif_pos h2]
    simp only [Nat.add_sub_cancel]
    rw [ih (x.getD i ' ' :: acc.1, gapMark :: acc.2) (by omega)]
    have e1 : x.take i ++ (x.getD i ' ' :: acc.1) = x.take (i + 1) ++ acc.1 := by
      rw [take_getD_succ (show i < x.length by omega) ' ']
      simp
    have e2 : List.replicate i gapMark ++ (gapMark :: acc.2) =
        List.replicate (i + 1) gapMark ++ acc.2 := by
      rw [List.replicate_succ']
      simp
    rw [show (x.getD i ' ' :: acc.1, gapMark :: acc.2).1 = x.getD i ' ' :: acc.1 from rfl,
      show (x.getD i ' ' :: acc.1, gapMark :: acc.2).2 = gapMark :: acc.2 from rfl]
    rw [e1, e2]

theorem dpG_row0_sum (s : Char → Char → Int) (x y : List Char) :
    ∀ j, j ≤ y.length → dpG s x y 0 j = gapScoreAgainst s (y.take j) := by
  intro j
  induction j with
  | zero => intro _; simp [dpG, gapScoreAgainst]
  | succ j ih =>
    intro hj
    have h1 : dpG s x y 0 (j + 1) = dpG s x y 0 j + s gapSym (y.getD j ' ') := by
      simp [dpG]
    rw [h1, ih (by omega), take_getD_succ (show j < y.length by omega) ' ']
    simp [gapScoreAgainst]

theorem dpG_col0_sum (s : Char → Char → Int) (x y : List Char) :
    ∀ i, i ≤ x.length → dpG s x y i 0 = gapScoreOf s (x.take i) := by
  intro i
  induction i with
  | zero => intro _; simp [dpG, gapScoreOf]
  | succ i ih =>
    intro hi
    have h1 : dpG s x y (i + 1) 0 = dpG s x y i 0 + s (x.getD i ' ') gapSym := by
      simp [dpG]
    rw [h1, ih (by omega), take_getD_succ (show i < x.length by omega) ' ']
    simp [gapScoreOf]


/-! Claim theorems. -/

theorem seg_substring {x : List Char} {i0 i : Nat} (h0 : i0 ≤ i) (hi : i ≤ x.length) :
    substringOf ((x.take i).drop i0) x := by
  refine ⟨x.take i0, x.drop i, ?_⟩
  have htt : (x.take i).take i0 = x.take i0 := by
    rw [List.take_take]
    congr 1
    omega
  calc x.take i0 ++ (x.take i).drop i0 ++ x.drop i
      = ((x.take i).take i0 ++ (x.take i).drop i0) ++ x.drop i := by
        rw [htt]
    _ = x.take i ++ x.drop i := by rw [List.take_append_drop]
    _ = x := List.take_append_drop i x

/-- Claim C1: for every pair of input sequences (free of the reserved output
gap marker, per the data-model precondition) and every total scoring
function, the score returned by `global_alignment` equals the column-wise
re-scoring of its returned alignment, where a gap column contributes the
remaining symbol scored against the gap symbol; likewise for
`local_alignment`. -/
theorem score_equals_column_resum (x y : List Char) (s : Char → Char → Int)
    (hx : gapMark ∉ x) (hy : gapMark ∉ y) :
    alignScore s (global_alignment x y s).1 (global_alignment x y s).2.1 =
        (global_alignment x y s).2.2 ∧
      alignScore s (local_alignment x y s).1 (local_alignment x y s).2.1 =
        (local_alignment x y s).2.2 := by
  constructor
  · rw [global_alignment_eq]
    have h := gTraceback_score s x y hx hy (x.length + y.length) x.length y.length
      ([], []) le_rfl le_rfl le_rfl
    dsimp only
    simpa [alignScore] using h
  · rw [local_alignment_eq]
    obtain ⟨hbi, hbj, hbs⟩ := bestCell_inv s x y
    have hlen := ltraceB_len s x y (dpL s x y)
      ((bestCell (dpL s x y) x.length y.length).1 +
        (bestCell (dpL s x y) x.length y.length).2.1)
      (bestCell (dpL s x y) x.length y.length).1
      (bestCell (dpL s x y) x.length y.length).2.1 le_rfl
    dsimp only
    rw [alignScore_reverse s _ _ hlen]
    rw [ltraceB_score s x y hx hy
      ((bestCell (dpL s x y) x.length y.length).1 +
        (bestCell (dpL s x y) x.length y.length).2.1)
      _ _ le_rfl hbi hbj]
    exact hbs.symm

/-- Witness for C1 at a concrete input. -/
theorem score_equals_column_resum_witness :
    (gapMark ∉ (['a', 'b'] : List Char)) ∧ (gapMark ∉ (['b'] : List Char)) ∧
      (alignScore matchScore (global_alignment ['a', 'b'] ['b'] matchScore).1
          (global_alignment ['a', 'b'] ['b'] matchScore).2.1 =
          (global_alignment ['a', 'b'] ['b'] matchScore).2.2 ∧
        alignScore matchScore (local_alignment ['a', 'b'] ['b'] matchScore).1
          (local_alignment ['a', 'b'] ['b'] matchScore).2.1 =
          (local_alignment ['a', 'b'] ['b'] matchScore).2.2) :=
  ⟨by decide, by decide,
    score_equals_column_resum ['a', 'b'] ['b'] matchScore (by decide) (by decide)⟩

set_option maxRecDepth 8000 in
/-- Claim C2: the doctest's global scenario, `global_alignment` on
`"the brown cat"` and `"these brownies"` with the match/mismatch scoring
function, returns final score 3 (the `3.0` of the doctest), and removing
the gap markers from the two returned strings reproduces the inputs. -/
theorem global_doctest_scenario :
    (global_alignment "the brown cat".toList "these brownies".toList matchScore).2.2 = 3 ∧
      removeGaps (global_alignment "the brown cat".toList "these brownies".toList
        matchScore).1 = "the brown cat".toList ∧
      removeGaps (global_alignment "the brown cat".toList "these brownies".toList
        matchScore).2.1 = "these brownies".toList := by
  unfold global_alignment
  dsimp only
  rw [gTable_doctest]
  exact ⟨by decide, by decide, by decide⟩

set_option maxRecDepth 8000 in
/-- Claim C3: the doctest's local scenario, `local_alignment` on the same
inputs, returns final score 7 (the `7.0` of the doctest), and each returned
aligned string, after removing gap markers, is a contiguous substring of the
corresponding input. -/
theorem local_doctest_scenario :
    (local_alignment "the brown cat".toList "these brownies".toList matchScore).2.2 = 7 ∧
      substringOf (removeGaps (local_alignment "the brown cat".toList
        "these brownies".toList matchScore).1) "the brown cat".toList ∧
      substringOf (removeGaps (local_alignment "the brown cat".toList
        "these brownies".toList matchScore).2.1) "these brownies".toList := by
  unfold local_alignment
  dsimp only
  rw [bestCell_doctest, lTable_doctest]
  exact ⟨by decide, ⟨"th".toList, " cat".toList, by decide⟩,
    ⟨"thes".toList, "ies".toList, by decide⟩⟩

/-- Claim C4: for gap-marker-free inputs, removing all gap markers from the
first aligned string returned by `global_alignment` reproduces `seq1`
exactly, and likewise the second reproduces `seq2` (both sequences are fully
consumed). -/
theorem global_ungapped_reproduces_inputs (x y : List Char) (s : Char → Char → Int)
    (hx : gapMark ∉ x) (hy : gapMark ∉ y) :
    removeGaps (global_alignment x y s).1 = x ∧
      removeGaps (global_alignment x y s).2.1 = y := by
  rw [global_alignment_eq]
  obtain ⟨h1, h2⟩ := gTraceback_ungapped s x y hx hy (x.length + y.length)
    x.length y.length ([], []) le_rfl le_rfl le_rfl
  constructor
  · dsimp only
    rw [h1]
    simp [removeGaps]
  · dsimp only
    rw [h2]
    simp [removeGaps]

/-- Witness for C4 at a concrete input. -/
theorem global_ungapped_reproduces_inputs_witness :
    (gapMark ∉ (['a', 'b'] : List Char)) ∧ (gapMark ∉ (['b', 'c'] : List Char)) ∧
      (removeGaps (global_alignment ['a', 'b'] ['b', 'c'] matchScore).1 = ['a', 'b'] ∧
        removeGaps (global_alignment ['a', 'b'] ['b', 'c'] matchScore).2.1 = ['b', 'c']) :=
  ⟨by decide, by decide,
    global_ungapped_reproduces_inputs ['a', 'b'] ['b', 'c'] matchScore
      (by decide) (by decide)⟩

/-- Claim C5: for gap-marker-free inputs, removing all gap markers from each
aligned string returned by `local_alignment` yields a contiguous substring of
the corresponding input. -/
theorem local_ungapped_substrings (x y : List Char) (s : Char → Char → Int)
    (hx : gapMark ∉ x) (hy : gapMark ∉ y) :
    substringOf (removeGaps (local_alignment x y s).1) x ∧
      substringOf (removeGaps (local_alignment x y s).2.1) y := by
  rw [local_alignment_eq]
  obtain ⟨hbi, hbj, -⟩ := bestCell_inv s x y
  obtain ⟨i0, j0, hi0, hj0, ha, hb⟩ := ltraceB_segment s x y hx hy
    ((bestCell (dpL s x y) x.length y.length).1 +
      (bestCell (dpL s x y) x.length y.length).2.1)
    (bestCell (dpL s x y) x.length y.length).1
    (bestCell (dpL s x y) x.length y.length).2.1 le_rfl hbi hbj
  constructor
  · dsimp only
    rw [ha]
    exact seg_substring hi0 hbi
  · dsimp only
    rw [hb]
    exact seg_substring hj0 hbj

/-- Witness for C5 at a concrete input. -/
theorem local_ungapped_substrings_witness :
    (gapMark ∉ (['a', 'b'] : List Char)) ∧ (gapMark ∉ (['b', 'c'] : List Char)) ∧
      (substringOf (removeGaps (local_alignment ['a', 'b'] ['b', 'c'] matchScore).1)
          ['a', 'b'] ∧
        substringOf (removeGaps (local_alignment ['a', 'b'] ['b', 'c'] matchScore).2.1)
          ['b', 'c']) :=
  ⟨by decide, by decide,
    local_ungapped_substrings ['a', 'b'] ['b', 'c'] matchScore (by decide) (by decide)⟩

/-- Claim C6: for gap-marker-free inputs, both aligners return aligned
strings of equal length, and no column carries the gap marker in both rows
simultaneously. -/
theorem alignment_shape (x y : List Char) (s : Char → Char → Int)
    (hx : gapMark ∉ x) (hy : gapMark ∉ y) :
    ((global_alignment x y s).1.length = (global_alignment x y s).2.1.length ∧
        noBothGap (global_alignment x y s).1 (global_alignment x y s).2.1) ∧
      ((local_alignment x y s).1.length = (local_alignment x y s).2.1.length ∧
        noBothGap (local_alignment x y s).1 (local_alignment x y s).2.1) := by
  constructor
  · rw [global_alignment_eq]
    obtain ⟨hlen, hgap⟩ := gTraceback_shape s x y hx hy (dpG s x y)
      (x.length + y.length) x.length y.length ([], []) le_rfl
    exact ⟨hlen rfl, hgap noBothGap_nil⟩
  · rw [local_alignment_eq]
    obtain ⟨hbi, hbj, -⟩ := bestCell_inv s x y
    have hlen := ltraceB_len s x y (dpL s x y)
      ((bestCell (dpL s x y) x.length y.length).1 +
        (bestCell (dpL s x y) x.length y.length).2.1)
      (bestCell (dpL s x y) x.length y.length).1
      (bestCell (dpL s x y) x.length y.length).2.1 le_rfl
    have hgap := ltraceB_noBothGap s x y hx hy (dpL s x y)
      ((bestCell (dpL s x y) x.length y.length).1 +
        (bestCell (dpL s x y) x.length y.length).2.1)
      (bestCell (dpL s x y) x.length y.length).1
      (bestCell (dpL s x y) x.length y.length).2.1 le_rfl
    exact ⟨by simpa using hlen, noBothGap_reverse hgap hlen⟩

/-- Witness for C6 at a concrete input. -/
theorem alignment_shape_witness :
    (gapMark ∉ (['a', 'b'] : List Char)) ∧ (gapMark ∉ (['b'] : List Char)) ∧
      (((global_alignment ['a', 'b'] ['b'] matchScore).1.length =
            (global_alignment ['a', 'b'] ['b'] matchScore).2.1.length ∧
          noBothGap (global_alignment ['a', 'b'] ['b'] matchScore).1
            (global_alignment ['a', 'b'] ['b'] matchScore).2.1) ∧
        ((local_alignment ['a', 'b'] ['b'] matchScore).1.length =
            (local_alignment ['a', 'b'] ['b'] matchScore).2.1.length ∧
          noBothGap (local_alignment ['a', 'b'] ['b'] matchScore).1
            (local_alignment ['a', 'b'] ['b'] matchScore).2.1)) :=
  ⟨by decide, by decide,
    alignment_shape ['a', 'b'] ['b'] matchScore (by decide) (by decide)⟩

/-- Claim C7: the aligned strings returned by `global_alignment` equal those
of the spec-worded reference traceback `gTracebackRef`, which re-derives the
branches at each cell and prefers "up", then "left", then "diagonal" on
ties. -/
theorem global_tiebreak_matches_reference (x y : List Char) (s : Char → Char → Int) :
    (global_alignment x y s).1 =
        (gTracebackRef s x y (dpG s x y) x.length y.length ([], [])).1 ∧
      (global_alignment x y s).2.1 =
        (gTracebackRef s x y (dpG s x y) x.length y.length ([], [])).2 := by
  rw [global_alignment_eq]
  rw [gTracebackRef_eq_gTraceback s x y (x.length + y.length) x.length y.length
    ([], []) le_rfl]
  exact ⟨rfl, rfl⟩

/-- Claim C8: with one empty input, `global_alignment` aligns the other
sequence entirely against gap markers and returns its cumulative gap score;
with both inputs empty, both aligners return two empty strings and score
0. -/
theorem empty_sequence_edge_cases (x y : List Char) (s : Char → Char → Int) :
    global_alignment [] y s = (List.replicate y.length gapMark, y, gapScoreAgainst s y) ∧
      global_alignment x [] s = (x, List.replicate x.length gapMark, gapScoreOf s x) ∧
      global_alignment [] [] s = ([], [], 0) ∧
      local_alignment [] [] s = ([], [], 0) := by
  refine ⟨?_, ?_, ?_, ?_⟩
  · rw [global_alignment_eq]
    rw [show (([] : List Char)).length = 0 from rfl]
    rw [gTraceback_row0 s [] y y.length ([], []) le_rfl]
    rw [show dpG s [] y 0 y.length = gapScoreAgainst s (y.take y.length) from
      dpG_row0_sum s [] y y.length le_rfl]
    simp
  · rw [global_alignment_eq]
    rw [show (([] : List Char)).length = 0 from rfl]
    rw [gTraceback_col0 s x [] x.length ([], []) le_rfl]
    rw [show dpG s x [] x.length 0 = gapScoreOf s (x.take x.length) from
      dpG_col0_sum s x [] x.length le_rfl]
    simp
  · rfl
  · rfl

/-- Claim C9: increasing the reward of one symbol pair (by `d ≥ 0`), leaving
every other score unchanged, cannot decrease the score returned by either
aligner. -/
theorem single_reward_increase_monotone (x y : List Char) (s : Char → Char → Int)
    (a0 b0 : Char) (d : Int) (hd : 0 ≤ d) :
    (global_alignment x y s).2.2 ≤
        (global_alignment x y
          (fun a b => if a = a0 ∧ b = b0 then s a b + d else s a b)).2.2 ∧
      (local_alignment x y s).2.2 ≤
        (local_alignment x y
          (fun a b => if a = a0 ∧ b = b0 then s a b + d else s a b)).2.2 := by
  have hpt : ∀ a b, s a b ≤
      (fun a b => if a = a0 ∧ b = b0 then s a b + d else s a b) a b := by
    intro a b
    by_cases hc : a = a0 ∧ b = b0
    · simp only [if_pos hc]
      linarith
    · simp only [if_neg hc]
      exact le_rfl
  constructor
  · rw [global_alignment_eq, global_alignment_eq]
    dsimp only
    exact dpG_mono s _ hpt x y (x.length + y.length) x.length y.length le_rfl
  · rw [local_alignment_eq, local_alignment_eq]
    dsimp only
    exact bestCell_mono _ _ _ _ (fun i j => dpL_mono s _ hpt x y (i + j) i j le_rfl)

/-- Witness for C9 at a concrete input. -/
theorem single_reward_increase_monotone_witness :
    ((0 : Int) ≤ 2) ∧
      ((global_alignment ['a'] ['a'] matchScore).2.2 ≤
          (global_alignment ['a'] ['a']
            (fun a b => if a = 'a' ∧ b = 'a' then matchScore a b + 2
              else matchScore a b)).2.2 ∧
        (local_alignment ['a'] ['a'] matchScore).2.2 ≤
          (local_alignment ['a'] ['a']
            (fun a b => if a = 'a' ∧ b = 'a' then matchScore a b + 2
              else matchScore a b)).2.2) :=
  ⟨by decide, single_reward_increase_monotone ['a'] ['a'] matchScore 'a' 'a' 2 (by decide)⟩

/-- Claim C10: the traceback loop of `global_alignment` terminates: from any
in-range cell `(i, j)`, fuel `i + j` suffices because every loop step
strictly decreases `i + j` (so from `(n, m)` the loop reaches `(0, 0)` in at
most `n + m` steps); moreover whenever the diagonal `else` branch fires on
the real DP matrix, both indices are positive, so the loop never reads a
sequence at a negative position. -/
theorem global_traceback_terminates (x y : List Char) (s : Char → Char → Int)
    (i j : Nat) (acc : List Char × List Char) (hi : i ≤ x.length) (hj : j ≤ y.length) :
    gTraceF s x y (dpLook (gTable s x y)) (i + j) i j acc =
        some (gTraceback s x y (dpLook (gTable s x y)) i j acc) ∧
      (¬(i = 0 ∧ j = 0) →
        ¬(0 < i ∧ dpLook (gTable s x y) i j =
            dpLook (gTable s x y) (i - 1) j + s (x.getD (i - 1) ' ') gapSym) →
        ¬(0 < j ∧ dpLook (gTable s x y) i j =
            dpLook (gTable s x y) i (j - 1) + s gapSym (y.getD (j - 1) ' ')) →
        0 < i ∧ 0 < j) := by
  constructor
  · exact gTraceF_eq_gTraceback s x y _ (i + j) i j acc le_rfl
  · intro h1 h2 h3
    have e00 := dpLook_gTable s x y hi hj
    have e10 := dpLook_gTable s x y (le_trans (Nat.sub_le i 1) hi) hj
    have e01 := dpLook_gTable s x y hi (le_trans (Nat.sub_le j 1) hj)
    rw [e00, e10] at h2
    rw [e00, e01] at h3
    obtain ⟨hi4, hj4, -⟩ := gDiag_of_not_up_left s x y i j h1 h2 h3
    exact ⟨hi4, hj4⟩

/-- Witness for C10 at a concrete input. -/
theorem global_traceback_terminates_witness :
    ((1 : Nat) ≤ (['a'] : List Char).length) ∧ ((1 : Nat) ≤ (['b'] : List Char).length) ∧
      (gTraceF matchScore ['a'] ['b'] (dpLook (gTable matchScore ['a'] ['b'])) (1 + 1) 1 1
          ([], []) =
        some (gTraceback matchScore ['a'] ['b']
          (dpLook (gTable matchScore ['a'] ['b'])) 1 1 ([], [])) ∧
      (¬((1 : Nat) = 0 ∧ (1 : Nat) = 0) →
        ¬(0 < 1 ∧ dpLook (gTable matchScore ['a'] ['b']) 1 1 =
            dpLook (gTable matchScore ['a'] ['b']) (1 - 1) 1 +
              matchScore ((['a'] : List Char).getD (1 - 1) ' ') gapSym) →
        ¬(0 < 1 ∧ dpLook (gTable matchScore ['a'] ['b']) 1 1 =
            dpLook (gTable matchScore ['a'] ['b']) 1 (1 - 1) +
              matchScore gapSym ((['b'] : List Char).getD (1 - 1) ' ')) →
        0 < 1 ∧ 0 < 1)) :=
  ⟨by decide, by decide,
    global_traceback_terminates ['a'] ['b'] matchScore 1 1 ([], [])
      (by decide) (by decide)⟩

end Alignment
